import Mathlib

/-!
Verification of the tab/panel state model of the `nicenote` editor shell.

The development shallowly embeds two source modules:

* `src/store/tabManager.tsx` — the Tab Manager store: tab groups, tab
  stacks, workspace layouts, per-panel navigation histories.
* the `ObsidianLayout` component — the recursive split-panel tree and its
  tab-list operations (`splitPanel`, `removePanelNode`, `handleCloseTab`,
  `handleActivateTab`, `handleAddTab`, `handleDuplicate`).

JavaScript object records (`Record<string, T>`) are modelled as
insertion-ordered association lists, matching the enumeration order of
`Object.values` and the semantics of `{ ...m, [k]: v }`.  Where the source
code mutates shared objects in place (the group objects inside
`removeTabFromGroup`), a small explicit heap of objects addressed by
references is used, so that aliasing between the live state and stored
layout snapshots is represented faithfully.  Fresh identifiers produced by
`Date.now()` are passed in as explicit parameters.
-/

/-- `m[k]` on a JS object record: the value at the first (and in a
well-formed record, only) occurrence of key `k`. -/
def jsGet {α : Type} (m : List (String × α)) (k : String) : Option α :=
  (m.find? (fun kv => kv.1 = k)).map (fun kv => kv.2)

/-- `{ ...m, [k]: v }` on a JS object record: replace the value at `k` in
place if the key is present, otherwise append the new key at the end
(JS insertion-order semantics). -/
def jsSet {α : Type} (m : List (String × α)) (k : String) (v : α) :
    List (String × α) :=
  if m.any (fun kv => kv.1 = k) then
    m.map (fun kv => if kv.1 = k then (k, v) else kv)
  else m ++ [(k, v)]

/-- A JS object holding some subset of the fields of the `TabGroup`
interface.  `updateTabGroup` can build such partial objects via
`{ ...prev.tabGroups[groupId], ...updates }` when `groupId` is unknown
(spread of `undefined` contributes no fields), so the `tabGroups` record
stores partial objects; a well-formed group has every field present. -/
structure TabGroupObj where
  id : Option String
  name : Option String
  color : Option String
  tabs : Option (List String)
  isCollapsed : Option Bool
  isLocked : Option Bool
  position : Option Nat
deriving DecidableEq, Repr

/-- The JS object `{}`: no fields present. -/
def emptyGroupObj : TabGroupObj :=
  ⟨none, none, none, none, none, none, none⟩

/-- `{ ...a, ...u }`: fields of `u` override fields of `a`. -/
def mergeGroupObj (a u : TabGroupObj) : TabGroupObj where
  id := u.id <|> a.id
  name := u.name <|> a.name
  color := u.color <|> a.color
  tabs := u.tabs <|> a.tabs
  isCollapsed := u.isCollapsed <|> a.isCollapsed
  isLocked := u.isLocked <|> a.isLocked
  position := u.position <|> a.position

/-- The `TabStack` interface of `tabManager.tsx`. -/
structure TabStack where
  id : String
  tabs : List String
  activeTabIndex : Int
  isStacked : Bool
  stackTitle : Option String
  panelId : String
deriving DecidableEq, Repr

/-- The `NavigationHistory` interface of `tabManager.tsx`. -/
structure NavigationHistory where
  panelId : String
  history : List String
  currentIndex : Int
  maxSize : Nat
deriving DecidableEq, Repr

/-- The `settings` record of `TabManagerState`. -/
structure Settings where
  maxVisibleTabs : Nat
  enableAutoStacking : Bool
  stackingStrategy : String
  enableTabGroups : Bool
  showTabPreview : Bool
deriving DecidableEq, Repr

/-- Split direction of a `Split` panel node. -/
inductive Direction where
  | horizontal
  | vertical
deriving DecidableEq, Repr

/-- The `Tab` record used by the panel tree (`TabType` of `Tab.tsx`).
Fields never read by any panel-tree operation (`isDirty`, `groupId`,
`color`, `stackId`, `lastActivated`) are omitted; every operation either
copies a tab record wholesale or constructs one from these fields. -/
structure Tab where
  id : String
  title : String
  isActive : Bool
  isLocked : Option Bool
  documentId : Option String
  filePath : Option String
deriving DecidableEq, Repr

/-- The recursive `PanelNode` of `ObsidianLayout`: a tagged union of
`leaf` (with an ordered tab list) and `split` (with a direction and an
ordered child list).  `size`/`minSize` are optional, as in the source. -/
inductive PanelNode where
  | leaf (id : String) (tabs : List Tab) (size : Option Nat) (minSize : Option Nat)
  | split (id : String) (direction : Direction) (children : List PanelNode)
      (size : Option Nat) (minSize : Option Nat)
deriving Repr

/-- `node.id`. -/
def nodeId : PanelNode → String
  | .leaf i _ _ _ => i
  | .split i _ _ _ _ => i

/-- `node.type === 'leaf'`. -/
def isLeafNode : PanelNode → Bool
  | .leaf _ _ _ _ => true
  | .split _ _ _ _ _ => false

/-- `panel.tabs`: present on leaves, `undefined` on splits. -/
def nodeTabs : PanelNode → Option (List Tab)
  | .leaf _ ts _ _ => some ts
  | .split _ _ _ _ _ => none

/-- `{ ...node, size: s }`. -/
def setSize : PanelNode → Option Nat → PanelNode
  | .leaf i ts _ m, s => .leaf i ts s m
  | .split i d cs _ m, s => .split i d cs s m

/-- The `WorkspaceLayout` interface of `tabManager.tsx` (its `panelTree`
is a `PanelNode` in every call site). -/
structure WorkspaceLayout where
  id : String
  name : String
  description : Option String
  panelTree : PanelNode
  tabGroups : List (String × TabGroupObj)
  tabStacks : List (String × TabStack)
  createdAt : Nat
  isDefault : Option Bool

/-- The `TabManagerState` record of `tabManager.tsx`. -/
structure TabManagerState where
  tabGroups : List (String × TabGroupObj)
  tabStacks : List (String × TabStack)
  workspaceLayouts : List (String × WorkspaceLayout)
  navigationHistories : List (String × NavigationHistory)
  shortcuts : List (String × String)
  settings : Settings

/-- `updateTabGroup(groupId, updates)`: unconditionally writes
`{ ...prev.tabGroups[groupId], ...updates }` under `groupId`; when
`groupId` is unknown the spread of `undefined` is `{}`, so a new partial
record is inserted under the unknown id. -/
def updateTabGroup (s : TabManagerState) (groupId : String)
    (updates : TabGroupObj) : TabManagerState :=
  { s with
    tabGroups :=
      jsSet s.tabGroups groupId
        (mergeGroupObj ((jsGet s.tabGroups groupId).getD emptyGroupObj) updates) }

/-- `toggleStackMode(stackId)`: reads
`!prev.tabStacks[stackId].isStacked` with no existence guard; when
`stackId` is unknown this dereferences `undefined` and throws a
`TypeError`, modelled as `Except.error`. -/
def toggleStackMode (s : TabManagerState) (stackId : String) :
    Except String TabManagerState :=
  match jsGet s.tabStacks stackId with
  | none => .error "TypeError: cannot read property isStacked of undefined"
  | some st =>
    .ok { s with
          tabStacks :=
            jsSet s.tabStacks stackId { st with isStacked := !st.isStacked } }

/-- `removeTabFromStack(tabId, stackId)`: filters the id out and clamps
`activeTabIndex` to `min(activeTabIndex, max(0, newTabs.length - 1))`. -/
def removeTabFromStack (s : TabManagerState) (tabId stackId : String) :
    TabManagerState :=
  match jsGet s.tabStacks stackId with
  | none => s
  | some stack =>
    let newTabs := stack.tabs.filter (fun id => id ≠ tabId)
    let newActiveIndex : Int :=
      min stack.activeTabIndex (max 0 ((newTabs.length : Int) - 1))
    { s with
      tabStacks :=
        jsSet s.tabStacks stackId
          { stack with tabs := newTabs, activeTabIndex := newActiveIndex } }

/-- `setStackActiveTab(stackId, tabIndex)`: no-op when the stack is
missing or the index is out of `[0, len-1]`. -/
def setStackActiveTab (s : TabManagerState) (stackId : String)
    (tabIndex : Int) : TabManagerState :=
  match jsGet s.tabStacks stackId with
  | none => s
  | some stack =>
    if tabIndex < 0 ∨ (stack.tabs.length : Int) ≤ tabIndex then s
    else
      { s with
        tabStacks :=
          jsSet s.tabStacks stackId { stack with activeTabIndex := tabIndex } }

/-- `setDefaultLayout(layoutId)`: sets `isDefault = (layout.id === layoutId)`
on every stored layout. -/
def setDefaultLayout (s : TabManagerState) (layoutId : String) :
    TabManagerState :=
  { s with
    workspaceLayouts :=
      s.workspaceLayouts.map
        (fun kv => (kv.1, { kv.2 with isDefault := some (kv.2.id == layoutId) })) }

/-- The default history record `{ panelId, history: [], currentIndex: -1,
maxSize: 50 }` used when a panel has no history yet. -/
def defaultHistoryFor (panelId : String) : NavigationHistory :=
  ⟨panelId, [], -1, 50⟩

/-- `prev.navigationHistories[panelId] || { ... }`. -/
def fetchHistory (s : TabManagerState) (panelId : String) : NavigationHistory :=
  (jsGet s.navigationHistories panelId).getD (defaultHistoryFor panelId)

/-- `indexOf` + `splice(idx, 1)`: remove the first occurrence of `x`. -/
def spliceFirst : List String → String → List String
  | [], _ => []
  | a :: t, x => if a = x then t else a :: spliceFirst t x

/-- `addToHistory(panelId, tabId)`: remove the first prior occurrence of
the id, push it at the end, `shift()` the oldest entry when the length
exceeds `maxSize`, and set `currentIndex = newHistory.length - 1`. -/
def addToHistory (s : TabManagerState) (panelId tabId : String) :
    TabManagerState :=
  let history := fetchHistory s panelId
  let pushed := spliceFirst history.history tabId ++ [tabId]
  let newHistory := if history.maxSize < pushed.length then pushed.tail else pushed
  { s with
    navigationHistories :=
      jsSet s.navigationHistories panelId
        { history with
          history := newHistory,
          currentIndex := (newHistory.length : Int) - 1 } }

/-- `loadWorkspaceLayout(layoutId)`: returns `null` and leaves the state
untouched for an unknown id; otherwise replaces `tabGroups`/`tabStacks`
with (shallow copies of) the snapshot's records and returns the layout. -/
def loadWorkspaceLayout (s : TabManagerState) (layoutId : String) :
    TabManagerState × Option WorkspaceLayout :=
  match jsGet s.workspaceLayouts layoutId with
  | none => (s, none)
  | some layout =>
    ({ s with tabGroups := layout.tabGroups, tabStacks := layout.tabStacks },
     some layout)

namespace JSHeap

/-!
Reference-semantics model for the workspace-layout snapshot claim.

In the source, `state.tabGroups` is a record whose values are mutable
group objects.  `saveWorkspaceLayout` stores `{ ...state.tabGroups }` in
the layout — a shallow copy of the record, so the layout and the live
state hold references to the *same* group objects.  `removeTabFromGroup`
copies the record but then assigns `group.tabs = group.tabs.filter(...)`
on each group object in place.  To express this, group objects live in an
explicit heap addressed by references (`Nat`); a record maps names to
references.  The `tabStacks` half of a snapshot has exactly the same
shape (`{ ...state.tabStacks }`) and is not repeated here.
-/

/-- A `TabGroup` object on the heap. -/
structure GroupObj where
  id : String
  name : String
  color : String
  tabs : List String
  isCollapsed : Bool
  isLocked : Bool
  position : Nat
deriving DecidableEq, Repr

/-- The heap of group objects; a reference is an index. -/
abbrev Heap := List GroupObj

/-- Dereference. -/
def heapGet (h : Heap) (r : Nat) : Option GroupObj := h.get? r

/-- In-place mutation of the object at reference `r`. -/
def heapSet (h : Heap) (r : Nat) (g : GroupObj) : Heap := h.set r g

/-- A stored `WorkspaceLayout`, keeping the parts relevant to snapshot
aliasing: its `tabGroups` record holds references, exactly as produced by
the shallow copy `{ ...state.tabGroups }`. -/
structure Layout where
  id : String
  name : String
  tabGroups : List (String × Nat)
  createdAt : Nat
deriving DecidableEq, Repr

/-- The group/layout part of the live store, with the heap made explicit. -/
structure StoreState where
  heap : Heap
  tabGroups : List (String × Nat)
  workspaceLayouts : List (String × Layout)
deriving DecidableEq, Repr

/-- `saveWorkspaceLayout(name, panelTree)`: stores a layout whose
`tabGroups` is the shallow copy `{ ...state.tabGroups }` — the same
references as the live record. -/
def saveWorkspaceLayout (s : StoreState) (layoutId name : String)
    (now : Nat) : StoreState :=
  let newLayout : Layout :=
    { id := layoutId, name := name, tabGroups := s.tabGroups, createdAt := now }
  { s with workspaceLayouts := jsSet s.workspaceLayouts layoutId newLayout }

/-- `removeTabFromGroup(tabId)`: copies the record
(`{ ...prev.tabGroups }`, leaving the references unchanged) and then, for
every group object containing the id, assigns a filtered `tabs` array to
the object **in place** — a heap mutation visible through every alias. -/
def removeTabFromGroup (s : StoreState) (tabId : String) : StoreState :=
  let newHeap := s.tabGroups.foldl (fun h kv =>
    match heapGet h kv.2 with
    | none => h
    | some g =>
      if tabId ∈ g.tabs then
        heapSet h kv.2 { g with tabs := g.tabs.filter (fun id => id ≠ tabId) }
      else h) s.heap
  { s with heap := newHeap }

/-- `loadWorkspaceLayout(layoutId)`: installs `{ ...layout.tabGroups }`
(the snapshot's references) as the live record and returns the layout. -/
def loadWorkspaceLayout (s : StoreState) (layoutId : String) :
    StoreState × Option Layout :=
  match jsGet s.workspaceLayouts layoutId with
  | none => (s, none)
  | some layout => ({ s with tabGroups := layout.tabGroups }, some layout)

/-- The deep (dereferenced) value of a group record: what a client
actually observes through the record. -/
def deepGroups (h : Heap) (m : List (String × Nat)) :
    List (String × Option GroupObj) :=
  m.map (fun kv => (kv.1, heapGet h kv.2))

end JSHeap

mutual

/-- `findPanelById(tree, id)`: the node itself when its id matches,
otherwise the first match found in its children, depth-first. -/
def findPanelById (t : PanelNode) (pid : String) : Option PanelNode :=
  match t with
  | .leaf i ts s m => if i = pid then some (.leaf i ts s m) else none
  | .split i d cs s m =>
    if i = pid then some (.split i d cs s m) else findPanelInList cs pid

/-- The `for (const child of tree.children)` loop of `findPanelById`. -/
def findPanelInList (cs : List PanelNode) (pid : String) : Option PanelNode :=
  match cs with
  | [] => none
  | c :: rest =>
    match findPanelById c pid with
    | some r => some r
    | none => findPanelInList rest pid

end

mutual

/-- The `updateNode` closure of `updatePanelTabs`: replace the tab list of
every leaf whose id is `panelId`, rebuild splits over their children. -/
def updateNode (pid : String) (newTabs : List Tab) (t : PanelNode) : PanelNode :=
  match t with
  | .leaf i ts s m => if i = pid then .leaf i newTabs s m else .leaf i ts s m
  | .split i d cs s m => .split i d (updateForest pid newTabs cs) s m

/-- `children.map(updateNode)`. -/
def updateForest (pid : String) (newTabs : List Tab) (cs : List PanelNode) :
    List PanelNode :=
  match cs with
  | [] => []
  | c :: rest => updateNode pid newTabs c :: updateForest pid newTabs rest

end

/-- `updatePanelTabs(panelId, newTabs)` applied to a tree. -/
def updatePanelTabs (t : PanelNode) (panelId : String) (newTabs : List Tab) :
    PanelNode :=
  updateNode panelId newTabs t

/-- The tab placed in the new half of a split: a fresh-id copy of the
active tab (`{ ...activeTab, id: Date.now(), isActive: true }`), or a
fresh blank tab backed by a new document when no tab is active.
`tabStamp` stands for `Date.now().toString()`, `docId` for the id
returned by `createDocument`. -/
def splitNewTab (ts : List Tab) (tabStamp docId : String) : Tab :=
  match ts.find? (fun tab => tab.isActive) with
  | some activeTab => { activeTab with id := tabStamp, isActive := true }
  | none =>
    { id := tabStamp, title := "新标签页", isActive := true,
      isLocked := none, documentId := some docId, filePath := none }

mutual

/-- The `splitNode` closure of `splitPanel`: replace the leaf whose id is
`pid` by a `Split` of the given direction with two half-sized leaves —
the first keeping the original tab list, the second holding exactly the
`splitNewTab`.  `childStamp` stands for the `Date.now()` in the second
child's id. -/
def splitNode (pid : String) (dir : Direction) (tabStamp childStamp docId : String) :
    PanelNode → PanelNode
  | .leaf i ts s m =>
    if i = pid then
      .split i dir
        [.leaf (i ++ "-original") ts (some 50) (some 20),
         .leaf (i ++ "-split-" ++ childStamp) [splitNewTab ts tabStamp docId]
           (some 50) (some 20)]
        s m
    else .leaf i ts s m
  | .split i d cs s m =>
    .split i d (splitForest pid dir tabStamp childStamp docId cs) s m

/-- `node.children.map(splitNode)`. -/
def splitForest (pid : String) (dir : Direction) (tabStamp childStamp docId : String) :
    List PanelNode → List PanelNode
  | [] => []
  | c :: rest =>
    splitNode pid dir tabStamp childStamp docId c ::
      splitForest pid dir tabStamp childStamp docId rest

end

/-- `splitPanel(panelId, direction)` applied to a tree. -/
def splitPanel (t : PanelNode) (panelId : String) (direction : Direction)
    (tabStamp childStamp docId : String) : PanelNode :=
  splitNode panelId direction tabStamp childStamp docId t

/-- The fresh blank tab `{ id: Date.now(), title: '新标签页',
isActive: true }` used when a panel would otherwise end up empty. -/
def blankTab (stamp : String) : Tab :=
  { id := stamp, title := "新标签页", isActive := true,
    isLocked := none, documentId := none, filePath := none }

mutual

/-- The `removeNode` closure of `removePanelNode`: `none` marks the node
with the target id for deletion; a split keeps the surviving children,
except that a split left with exactly one child *and having a parent* is
replaced by that child (which inherits the split's `size`). -/
def removeNode (pid : String) (hasParent : Bool) : PanelNode → Option PanelNode
  | .leaf i ts s m =>
    if i = pid then none else some (.leaf i ts s m)
  | .split i d cs s m =>
    if i = pid then none
    else
      match removeForest pid cs with
      | [onlyChild] =>
        if hasParent then some (setSize onlyChild s)
        else some (.split i d [onlyChild] s m)
      | [] => some (.split i d [] s m)
      | c1 :: c2 :: rest => some (.split i d (c1 :: c2 :: rest) s m)

/-- `node.children.map(removeNode).filter(nonNull)`; every child has the
current node as parent. -/
def removeForest (pid : String) : List PanelNode → List PanelNode
  | [] => []
  | c :: rest =>
    match removeNode pid true c with
    | none => removeForest pid rest
    | some r => r :: removeForest pid rest

end

/-- `removePanelNode(panelId)`: remove the node; if the whole tree was
removed, fall back to a fresh single-leaf root holding one blank tab. -/
def removePanelNode (t : PanelNode) (panelId : String) (stamp : String) :
    PanelNode :=
  match removeNode panelId false t with
  | some result => result
  | none => .leaf "root" [blankTab stamp] none none

/-- `newTabs[0].isActive = true`: in-place activation of the first
remaining tab after a close. -/
def activateHead : List Tab → List Tab
  | [] => []
  | a :: rest => { a with isActive := true } :: rest

/-- `handleCloseTab(panelId)(id)`: filter the tab out of the found leaf's
list; on a now-empty list either reset the root/only panel to one blank
tab or remove the panel; otherwise activate the first remaining tab when
the closed tab was the active one.  `stamp` stands for `Date.now()`. -/
def handleCloseTab (t : PanelNode) (panelId tabId : String) (stamp : String) :
    PanelNode :=
  match (findPanelById t panelId).bind nodeTabs with
  | none => t
  | some tabs =>
    let newTabs := tabs.filter (fun tab => tab.id ≠ tabId)
    if newTabs.isEmpty then
      if nodeId t = panelId ∨ isLeafNode t then
        updatePanelTabs t panelId [blankTab stamp]
      else removePanelNode t panelId stamp
    else
      match tabs.find? (fun tab => tab.id = tabId) with
      | some closedTab =>
        if closedTab.isActive then updatePanelTabs t panelId (activateHead newTabs)
        else updatePanelTabs t panelId newTabs
      | none => updatePanelTabs t panelId newTabs

/-- `handleActivateTab(panelId)(id)`: set `isActive` on exactly the tabs
whose id matches (history push and focus bookkeeping are external). -/
def handleActivateTab (t : PanelNode) (panelId tabId : String) : PanelNode :=
  match (findPanelById t panelId).bind nodeTabs with
  | none => t
  | some tabs =>
    updatePanelTabs t panelId
      (tabs.map (fun tab => { tab with isActive := tab.id == tabId }))

/-- `handleAddTab(panelId)()`: append one inactive blank tab backed by a
new document. -/
def handleAddTab (t : PanelNode) (panelId : String) (stamp docId : String) :
    PanelNode :=
  match (findPanelById t panelId).bind nodeTabs with
  | none => t
  | some tabs =>
    updatePanelTabs t panelId
      (tabs ++ [{ id := stamp, title := "新标签页", isActive := false,
                  isLocked := none, documentId := some docId, filePath := none }])

/-- `handleDuplicate(panelId)(id)`: append an inactive fresh-id copy of
the target tab with `" - 副本"` appended to the title. -/
def handleDuplicate (t : PanelNode) (panelId tabId : String) (stamp : String) :
    PanelNode :=
  match (findPanelById t panelId).bind nodeTabs with
  | none => t
  | some tabs =>
    match tabs.find? (fun tab => tab.id = tabId) with
    | none => t
    | some targetTab =>
      updatePanelTabs t panelId
        (tabs ++
          [{ targetTab with
             id := stamp,
             title := targetTab.title ++ " - 副本",
             isActive := false }])

mutual

/-- Every `split` node in the tree, the root included, has at least two
children — the invariant named by the specification. -/
def noSmallSplit : PanelNode → Bool
  | .leaf _ _ _ _ => true
  | .split _ _ cs _ _ => decide (2 ≤ cs.length) && noSmallSplitForest cs

/-- `noSmallSplit` on every tree of a forest. -/
def noSmallSplitForest : List PanelNode → Bool
  | [] => true
  | c :: rest => noSmallSplit c && noSmallSplitForest rest

end

/-- Every `split` node *below the root* has at least two children; the
root itself is unconstrained. -/
def nonRootSplitsOk : PanelNode → Bool
  | .leaf _ _ _ _ => true
  | .split _ _ cs _ _ => noSmallSplitForest cs

mutual

/-- All node ids of a tree, depth-first. -/
def allIds : PanelNode → List String
  | .leaf i _ _ _ => [i]
  | .split i _ cs _ _ => i :: idsForest cs

/-- All node ids of a forest. -/
def idsForest : List PanelNode → List String
  | [] => []
  | c :: rest => allIds c ++ idsForest rest

end

mutual

/-- Whether some leaf of the tree has the given id — whether `panelId`
resolves to a leaf for `splitPanel`. -/
def hasLeafWithId : PanelNode → String → Bool
  | .leaf i _ _ _, pid => i = pid
  | .split _ _ cs _ _, pid => forestHasLeaf cs pid

/-- `hasLeafWithId` somewhere in a forest. -/
def forestHasLeaf : List PanelNode → String → Bool
  | [], _ => false
  | c :: rest, pid => hasLeafWithId c pid || forestHasLeaf rest pid

end

/-- One structural operation on the panel tree, with the identifiers that
the source draws from `Date.now()`/`createDocument` made explicit. -/
inductive LayoutOp where
  | splitOp (panelId : String) (direction : Direction)
      (tabStamp childStamp docId : String)
  | removeOp (panelId : String) (stamp : String)

/-- Apply one operation. -/
def applyOp (t : PanelNode) : LayoutOp → PanelNode
  | .splitOp pid dir ts cs did => splitPanel t pid dir ts cs did
  | .removeOp pid st => removePanelNode t pid st

/-- Apply a sequence of operations, oldest first. -/
def applyOps (t : PanelNode) : List LayoutOp → PanelNode
  | [] => t
  | op :: rest => applyOps (applyOp t op) rest

/-- Freshness of the identifiers an operation generates: the two child
ids a split creates are new to the tree and distinct from each other
(in the source they come from `Date.now()` against ids created at
earlier instants). -/
def opFresh (t : PanelNode) : LayoutOp → Prop
  | .splitOp pid _ _ childStamp _ =>
      (pid ++ "-original") ∉ allIds t ∧
      (pid ++ "-split-" ++ childStamp) ∉ allIds t ∧
      pid ++ "-original" ≠ pid ++ "-split-" ++ childStamp
  | .removeOp _ _ => True

/-- A sequence of operations each of whose generated identifiers is fresh
for the tree it is applied to. -/
inductive SafeOps : PanelNode → List LayoutOp → Prop where
  | nil (t : PanelNode) : SafeOps t []
  | cons {t : PanelNode} {op : LayoutOp} {rest : List LayoutOp}
      (hf : opFresh t op) (hrest : SafeOps (applyOp t op) rest) :
      SafeOps t (op :: rest)

/-- Count of tabs with `isActive = true`. -/
def countActive (ts : List Tab) : Nat :=
  ts.countP (fun tab => tab.isActive)

/-- The tab list of the panel with the given id, as an observer:
`findPanelById` followed by `.tabs`. -/
def panelTabsAt (t : PanelNode) (pid : String) : Option (List Tab) :=
  (findPanelById t pid).bind nodeTabs

/-- The `DEFAULT_SETTINGS` constant of `tabManager.tsx`. -/
def DEFAULT_SETTINGS : Settings :=
  { maxVisibleTabs := 8, enableAutoStacking := true,
    stackingStrategy := "overflow", enableTabGroups := true,
    showTabPreview := true }

/-! Concrete states used by counterexamples and witnesses. -/

/-- A fully populated group object, as `createTabGroup` builds them. -/
def exGroupG1 : TabGroupObj :=
  { id := some "g1", name := some "G", color := some "#3b82f6",
    tabs := some ["t1", "t2"], isCollapsed := some false,
    isLocked := some false, position := some 0 }

/-- A stack holding three tabs with the last one active. -/
def exStack3 : TabStack :=
  { id := "s1", tabs := ["t1", "t2", "t3"], activeTabIndex := 2,
    isStacked := true, stackTitle := none, panelId := "left" }

/-- A small live Tab Manager state: one group, one stack, one history. -/
def exTM : TabManagerState :=
  { tabGroups := [("g1", exGroupG1)],
    tabStacks := [("s1", exStack3)],
    workspaceLayouts := [],
    navigationHistories := [("left", ⟨"left", ["1", "2"], 1, 50⟩)],
    shortcuts := [],
    settings := DEFAULT_SETTINGS }

/-- A stored layout whose id is `"a"`, currently the default. -/
def exLayoutA : WorkspaceLayout :=
  { id := "a", name := "A", description := none,
    panelTree := .leaf "root" [] none none,
    tabGroups := [("g1", exGroupG1)], tabStacks := [],
    createdAt := 1, isDefault := some true }

/-- A state storing only the layout `"a"`. -/
def exTMLayouts : TabManagerState :=
  { tabGroups := [], tabStacks := [], workspaceLayouts := [("a", exLayoutA)],
    navigationHistories := [], shortcuts := [], settings := DEFAULT_SETTINGS }

/-- Heap-model group object `g1` holding tabs `t1`, `t2`. -/
def exHeapG1 : JSHeap.GroupObj :=
  { id := "g1", name := "G", color := "#3b82f6", tabs := ["t1", "t2"],
    isCollapsed := false, isLocked := false, position := 0 }

/-- Heap-model store: the live record names `g1` at reference `0`. -/
def exHeapStore : JSHeap.StoreState :=
  { heap := [exHeapG1], tabGroups := [("g1", 0)], workspaceLayouts := [] }

/-- The store right after `saveWorkspaceLayout('L', tree)`. -/
def exHeapSaved : JSHeap.StoreState :=
  JSHeap.saveWorkspaceLayout exHeapStore "layout1" "L" 100

/-- The previous store after a later `removeTabFromGroup('t1')`. -/
def exHeapMutated : JSHeap.StoreState :=
  JSHeap.removeTabFromGroup exHeapSaved "t1"

/-- Three tabs `1`, `2`, `3` with tab `2` active. -/
def exTabs3 : List Tab :=
  [{ id := "1", title := "one", isActive := false, isLocked := none,
     documentId := none, filePath := none },
   { id := "2", title := "two", isActive := true, isLocked := none,
     documentId := none, filePath := none },
   { id := "3", title := "three", isActive := false, isLocked := none,
     documentId := none, filePath := none }]

/-- A single active tab `A`. -/
def exTabA : Tab :=
  { id := "A", title := "A", isActive := true, isLocked := none,
    documentId := some "docA", filePath := none }

/-- A well-formed two-leaf tree: `root` splitting into leaves `a`, `b`. -/
def exTree2 : PanelNode :=
  .split "root" .horizontal
    [.leaf "a" [exTabA] (some 35) (some 20),
     .leaf "b" exTabs3 (some 65) (some 20)]
    none none

/-- The history-list computation inside `addToHistory`: remove the first
occurrence, push at the end, drop the head when the result exceeds
`maxSize`. -/
def historyStep (l : List String) (t : String) (M : Nat) : List String :=
  let pushed := spliceFirst l t ++ [t]
  if M < pushed.length then pushed.tail else pushed

/-! ## Record lemmas -/

theorem find_replace_of_any {α : Type} (m : List (String × α)) (k : String) (v : α)
    (h : m.any (fun kv => kv.1 = k) = true) :
    (m.map (fun kv => if kv.1 = k then (k, v) else kv)).find?
      (fun kv => kv.1 = k) = some (k, v) := by
  induction m with
  | nil => simp at h
  | cons a t ih =>
    by_cases hk : a.1 = k
    · simp only [List.map_cons, if_pos hk]
      exact List.find?_cons_of_pos _ (by simp)
    · have h2 : t.any (fun kv => kv.1 = k) = true := by
        simp only [List.any_cons, Bool.or_eq_true, decide_eq_true_eq] at h
        tauto
      simp only [List.map_cons, if_neg hk]
      rw [List.find?_cons_of_neg _ (by simp [hk])]
      exact ih h2

theorem jsGet_jsSet_self {α : Type} (m : List (String × α)) (k : String) (v : α) :
    jsGet (jsSet m k v) k = some v := by
  unfold jsGet jsSet
  cases hm : m.any (fun kv => kv.1 = k) with
  | true =>
    simp only [hm, if_true]
    rw [find_replace_of_any m k v hm]
    rfl
  | false =>
    simp only [hm, Bool.false_eq_true, if_false]
    have hnone : m.find? (fun kv => kv.1 = k) = none := by
      rw [List.find?_eq_none]
      intro x hx
      have hall := List.any_eq_false.mp hm x hx
      simpa using hall
    rw [List.find?_append, hnone]
    simp

/-! ## Workspace-layout snapshotting (aliasing) -/

/-- C1: the claim fails on the code.  `saveWorkspaceLayout` stores only a
shallow copy of the group record, so the snapshot shares the group
objects with the live state, and `removeTabFromGroup` mutates those
objects in place.  Concretely: save while `g1` holds `[t1, t2]`, then
`removeTabFromGroup('t1')`, then load — the loaded snapshot observes
`[t2]`, not the `[t1, t2]` it held at save time. -/
theorem snapshot_aliases_live_groups :
    JSHeap.deepGroups exHeapSaved.heap exHeapSaved.tabGroups
      = [("g1", some exHeapG1)] ∧
    (JSHeap.loadWorkspaceLayout exHeapMutated "layout1").2
      = some { id := "layout1", name := "L", tabGroups := [("g1", 0)],
               createdAt := 100 } ∧
    JSHeap.deepGroups (JSHeap.loadWorkspaceLayout exHeapMutated "layout1").1.heap
        (JSHeap.loadWorkspaceLayout exHeapMutated "layout1").1.tabGroups
      = [("g1", some { exHeapG1 with tabs := ["t2"] })] ∧
    JSHeap.deepGroups (JSHeap.loadWorkspaceLayout exHeapMutated "layout1").1.heap
        (JSHeap.loadWorkspaceLayout exHeapMutated "layout1").1.tabGroups
      ≠ JSHeap.deepGroups exHeapSaved.heap exHeapSaved.tabGroups := by
  exact ⟨rfl, rfl, rfl, by decide⟩

/-! ## Unknown-id behaviour of `updateTabGroup` / `toggleStackMode` -/

/-- C3: the claim fails on the code.  With an unknown `stackId`,
`toggleStackMode` dereferences `undefined.isStacked` and throws a
`TypeError`; with an unknown `groupId`, `updateTabGroup` inserts a new
(partial) record under the unknown id.  Neither is a silent no-op. -/
theorem unknownId_ops_throw_or_insert :
    jsGet exTM.tabStacks "missing" = none ∧
    toggleStackMode exTM "missing" =
      .error "TypeError: cannot read property isStacked of undefined" ∧
    jsGet exTM.tabGroups "ghost" = none ∧
    jsGet (updateTabGroup exTM "ghost"
        { emptyGroupObj with name := some "renamed" }).tabGroups "ghost" =
      some { emptyGroupObj with name := some "renamed" } :=
  ⟨rfl, rfl, rfl, by decide⟩

/-! ## `setDefaultLayout` -/

/-- C5, counterexample: for a `layoutId` that is not the id of any stored
layout, `setDefaultLayout` clears the flag everywhere, so no layout at
all is left with `isDefault = true` — not "exactly one". -/
theorem setDefaultLayout_unknown_id_counterexample :
    (setDefaultLayout exTMLayouts "b").workspaceLayouts.countP
      (fun kv => kv.2.isDefault == some true) ≠ 1 := by
  decide

/-- C5 (amended): when `layoutId` is the id of exactly one stored layout,
`setDefaultLayout` leaves exactly one layout with `isDefault = true`, and
every layout with a different id gets the flag explicitly cleared; for an
unknown id the flag is cleared on all layouts. -/
theorem setDefaultLayout_exclusive_flag (s : TabManagerState) (layoutId : String)
    (h : s.workspaceLayouts.countP (fun kv => kv.2.id == layoutId) = 1) :
    (setDefaultLayout s layoutId).workspaceLayouts.countP
      (fun kv => kv.2.isDefault == some true) = 1 ∧
    ∀ kv ∈ (setDefaultLayout s layoutId).workspaceLayouts,
      kv.2.id ≠ layoutId → kv.2.isDefault = some false := by
  constructor
  · unfold setDefaultLayout
    rw [List.countP_map]
    rw [← h]
    apply List.countP_congr
    intro kv _
    cases hkv : kv.2.id == layoutId <;> simp [Function.comp, hkv]
  · intro kv hkv hne
    unfold setDefaultLayout at hkv
    simp only [List.mem_map] at hkv
    obtain ⟨pre, _, heq⟩ := hkv
    have h2 : kv.2 = { pre.2 with isDefault := some (pre.2.id == layoutId) } := by
      rw [← heq]
    have hid : pre.2.id = kv.2.id := by rw [h2]
    rw [h2]
    have : (pre.2.id == layoutId) = false := by
      rw [hid]
      exact beq_eq_false_iff_ne.mpr hne
    rw [this]

/-- C5, witness: setting the default to the stored layout `"a"`. -/
theorem setDefaultLayout_exclusive_flag_witness :
    exTMLayouts.workspaceLayouts.countP (fun kv => kv.2.id == "a") = 1 ∧
    (setDefaultLayout exTMLayouts "a").workspaceLayouts.countP
      (fun kv => kv.2.isDefault == some true) = 1 :=
  ⟨by decide, (setDefaultLayout_exclusive_flag exTMLayouts "a" (by decide)).1⟩

/-! ## `loadWorkspaceLayout` -/

/-- C10: loading an existing layout replaces exactly the `tabGroups` and
`tabStacks` fields of the live state (histories, stored layouts,
shortcuts and settings are untouched) and returns the layout; an unknown
id leaves the whole state unchanged and returns `null`. -/
theorem loadWorkspaceLayout_frame (s : TabManagerState) (layoutId : String) :
    (∀ l, jsGet s.workspaceLayouts layoutId = some l →
      (loadWorkspaceLayout s layoutId).1.tabGroups = l.tabGroups ∧
      (loadWorkspaceLayout s layoutId).1.tabStacks = l.tabStacks ∧
      (loadWorkspaceLayout s layoutId).1.navigationHistories
        = s.navigationHistories ∧
      (loadWorkspaceLayout s layoutId).1.workspaceLayouts
        = s.workspaceLayouts ∧
      (loadWorkspaceLayout s layoutId).1.shortcuts = s.shortcuts ∧
      (loadWorkspaceLayout s layoutId).1.settings = s.settings ∧
      (loadWorkspaceLayout s layoutId).2 = some l) ∧
    (jsGet s.workspaceLayouts layoutId = none →
      loadWorkspaceLayout s layoutId = (s, none)) := by
  constructor
  · intro l hl
    unfold loadWorkspaceLayout
    rw [hl]
    exact ⟨rfl, rfl, rfl, rfl, rfl, rfl, rfl⟩
  · intro h
    unfold loadWorkspaceLayout
    rw [h]

/-- C10, witness: loading the stored layout `"a"` of a concrete state. -/
theorem loadWorkspaceLayout_frame_witness :
    jsGet exTMLayouts.workspaceLayouts "a" = some exLayoutA ∧
    (loadWorkspaceLayout exTMLayouts "a").1.tabGroups = exLayoutA.tabGroups ∧
    (loadWorkspaceLayout exTMLayouts "a").1.navigationHistories
      = exTMLayouts.navigationHistories ∧
    (loadWorkspaceLayout exTMLayouts "a").2 = some exLayoutA := by
  have h := (loadWorkspaceLayout_frame exTMLayouts "a").1 exLayoutA rfl
  exact ⟨rfl, h.1, h.2.2.1, h.2.2.2.2.2.2⟩

/-! ## Tab-stack index clamping -/

/-- C9: `removeTabFromStack` filters the id out and clamps the active
index to `min(activeTabIndex, len-1)` (to `0` on an emptied stack), so a
non-negative index stays in `[0, len-1]` whenever the stack is
non-empty; `setStackActiveTab` is a no-op for an out-of-range index. -/
theorem stack_active_index_clamped :
    (∀ (s : TabManagerState) (stackId tabId : String) (st : TabStack),
      jsGet s.tabStacks stackId = some st → 0 ≤ st.activeTabIndex →
      ∀ st2, jsGet (removeTabFromStack s tabId stackId).tabStacks stackId
          = some st2 →
        st2.tabs = st.tabs.filter (fun id => id ≠ tabId) ∧
        (st2.tabs ≠ [] →
          st2.activeTabIndex
            = min st.activeTabIndex ((st2.tabs.length : Int) - 1) ∧
          0 ≤ st2.activeTabIndex ∧
          st2.activeTabIndex < (st2.tabs.length : Int)) ∧
        (st2.tabs = [] → st2.activeTabIndex = 0)) ∧
    (∀ (s : TabManagerState) (stackId : String) (tabIndex : Int) (st : TabStack),
      jsGet s.tabStacks stackId = some st →
      tabIndex < 0 ∨ (st.tabs.length : Int) ≤ tabIndex →
      setStackActiveTab s stackId tabIndex = s) := by
  constructor
  · intro s stackId tabId st hst hnn st2 hst2
    unfold removeTabFromStack at hst2
    rw [hst] at hst2
    simp only [jsGet_jsSet_self] at hst2
    have hst2' :
        st2 = { st with
                tabs := st.tabs.filter (fun id => id ≠ tabId),
                activeTabIndex :=
                  min st.activeTabIndex
                    (max 0 (((st.tabs.filter (fun id => id ≠ tabId)).length : Int)
                      - 1)) } := by
      exact (Option.some.injEq _ _).mp hst2.symm
    subst hst2'
    refine ⟨rfl, ?_, ?_⟩
    · intro hne
      dsimp only at hne ⊢
      have hlen : 1 ≤ (st.tabs.filter (fun id => id ≠ tabId)).length := by
        cases hf : st.tabs.filter (fun id => id ≠ tabId) with
        | nil => exact absurd hf hne
        | cons a l => simp [hf]
      have hmax : max (0 : Int)
            (((st.tabs.filter (fun id => id ≠ tabId)).length : Int) - 1)
          = ((st.tabs.filter (fun id => id ≠ tabId)).length : Int) - 1 :=
        max_eq_right (by omega)
      rw [hmax]
      refine ⟨rfl, le_min hnn (by omega), ?_⟩
      exact lt_of_le_of_lt (min_le_right _ _) (by omega)
    · intro hempty
      dsimp only at hempty ⊢
      have h0 : ((st.tabs.filter (fun id => id ≠ tabId)).length : Int) = 0 := by
        rw [hempty]; rfl
      rw [h0]
      have hm : max (0 : Int) (0 - 1) = 0 := by decide
      rw [hm]
      exact min_eq_right hnn
  · intro s stackId tabIndex st hst hout
    simp only [setStackActiveTab, hst]
    rw [if_pos hout]

/-- C9, witness: removing the tab at index 2 of a three-tab stack whose
active index is 2 clamps the index to 1 (the specification's scenario). -/
theorem stack_active_index_clamped_witness :
    jsGet exTM.tabStacks "s1" = some exStack3 ∧
    (0 : Int) ≤ exStack3.activeTabIndex ∧
    jsGet (removeTabFromStack exTM "t3" "s1").tabStacks "s1"
      = some { exStack3 with tabs := ["t1", "t2"], activeTabIndex := 1 } ∧
    (({ exStack3 with tabs := ["t1", "t2"], activeTabIndex := 1 } : TabStack).tabs
      = exStack3.tabs.filter (fun id => id ≠ "t3")) := by
  refine ⟨rfl, by decide, by decide, ?_⟩
  exact (stack_active_index_clamped.1 exTM "s1" "t3" exStack3 rfl (by decide)
    { exStack3 with tabs := ["t1", "t2"], activeTabIndex := 1 } (by decide)).1

/-! ## Navigation history -/

theorem spliceFirst_of_not_mem (l : List String) (x : String) (h : x ∉ l) :
    spliceFirst l x = l := by
  induction l with
  | nil => rfl
  | cons a t ih =>
    have hax : ¬a = x := fun hax => h (by simp [hax])
    simp only [spliceFirst, if_neg hax]
    rw [ih (fun hx => h (List.mem_cons_of_mem a hx))]

theorem spliceFirst_eq_filter (l : List String) (x : String) (hnd : l.Nodup) :
    spliceFirst l x = l.filter (fun y => y ≠ x) := by
  induction l with
  | nil => rfl
  | cons a t ih =>
    rcases List.nodup_cons.mp hnd with ⟨hat, hndt⟩
    by_cases hax : a = x
    · subst hax
      simp only [spliceFirst, if_pos rfl]
      rw [List.filter_cons_of_neg (by simp)]
      exact (List.filter_eq_self.mpr (fun b hb => by
        simp only [ne_eq, decide_eq_true_eq]
        exact fun hbx => hat (hbx ▸ hb))).symm
    · simp only [spliceFirst, if_neg hax]
      rw [List.filter_cons_of_pos (by simp [hax])]
      rw [ih hndt]

theorem length_filter_ne_of_mem (l : List String) (x : String)
    (hnd : l.Nodup) (hx : x ∈ l) :
    (l.filter (fun y => y ≠ x)).length + 1 = l.length := by
  induction l with
  | nil => cases hx
  | cons a t ih =>
    rcases List.nodup_cons.mp hnd with ⟨hat, hndt⟩
    by_cases hax : a = x
    · subst hax
      rw [List.filter_cons_of_neg (by simp)]
      rw [List.filter_eq_self.mpr (fun b hb => by
        simp only [ne_eq, decide_eq_true_eq]
        exact fun hbx => hat (hbx ▸ hb))]
      simp
    · have hxt : x ∈ t := by
        rcases List.mem_cons.mp hx with h | h
        · exact absurd h.symm hax
        · exact h
      rw [List.filter_cons_of_pos (by simp [hax])]
      simp only [List.length_cons]
      rw [← ih hndt hxt]

theorem filter_ne_of_not_mem (l : List String) (x : String) (h : x ∉ l) :
    l.filter (fun y => y ≠ x) = l :=
  List.filter_eq_self.mpr (fun b hb => by
    simp only [ne_eq, decide_eq_true_eq]
    exact fun hbx => h (hbx ▸ hb))

theorem nodup_append_singleton (l : List String) (x : String)
    (hnd : l.Nodup) (hx : x ∉ l) : (l ++ [x]).Nodup := by
  simp [List.nodup_append, hnd, hx]

/-- Behaviour of one `addToHistory` list step under the reachable-state
invariants. -/
theorem historyStep_spec (l : List String) (t : String) (M : Nat)
    (hnd : l.Nodup) (hlen : l.length ≤ M) (hpos : 0 < M) :
    (t ∈ l → historyStep l t M = l.filter (fun x => x ≠ t) ++ [t] ∧
      (historyStep l t M).length = l.length) ∧
    (t ∉ l → l.length < M → historyStep l t M = l ++ [t]) ∧
    (t ∉ l → l.length = M → historyStep l t M = l.tail ++ [t]) ∧
    (historyStep l t M).Nodup ∧ t ∈ historyStep l t M ∧
    (historyStep l t M).length ≤ M ∧ historyStep l t M ≠ [] := by
  by_cases hm : t ∈ l
  · have hflen : (l.filter (fun x => x ≠ t)).length + 1 = l.length :=
      length_filter_ne_of_mem l t hnd hm
    have hNH : historyStep l t M = l.filter (fun x => x ≠ t) ++ [t] := by
      unfold historyStep
      rw [spliceFirst_eq_filter l t hnd]
      rw [if_neg (by simp only [List.length_append, List.length_cons,
        List.length_nil]; omega)]
    have hlen2 : (historyStep l t M).length = l.length := by
      rw [hNH]; simp only [List.length_append, List.length_cons,
        List.length_nil]; omega
    have hfn : t ∉ l.filter (fun x => x ≠ t) := by
      intro hc
      have := List.of_mem_filter hc
      simp at this
    refine ⟨fun _ => ⟨hNH, hlen2⟩, fun h' => absurd hm h',
      fun h' => absurd hm h', ?_, ?_, ?_, ?_⟩
    · rw [hNH]
      exact nodup_append_singleton _ t (hnd.filter _) hfn
    · rw [hNH]; exact List.mem_append_right _ (by simp)
    · omega
    · rw [hNH]; simp
  · have hsp : spliceFirst l t = l := spliceFirst_of_not_mem l t hm
    rcases lt_or_eq_of_le hlen with hl | hl
    · have hNH : historyStep l t M = l ++ [t] := by
        unfold historyStep
        rw [hsp, if_neg (by simp only [List.length_append, List.length_cons,
          List.length_nil]; omega)]
      refine ⟨fun h' => absurd h' hm, fun _ _ => hNH,
        fun _ h' => absurd h' (by omega), ?_, ?_, ?_, ?_⟩
      · rw [hNH]; exact nodup_append_singleton l t hnd hm
      · rw [hNH]; exact List.mem_append_right _ (by simp)
      · rw [hNH]; simp only [List.length_append, List.length_cons,
          List.length_nil]; omega
      · rw [hNH]; simp
    · have hln : l ≠ [] := by
        intro hc; rw [hc] at hl; simp at hl; omega
      have hNH : historyStep l t M = l.tail ++ [t] := by
        unfold historyStep
        rw [hsp, if_pos (by simp only [List.length_append, List.length_cons,
          List.length_nil]; omega)]
        exact List.tail_append_of_ne_nil hln
      have htl : l.tail.length + 1 = l.length := by
        cases l with
        | nil => exact absurd rfl hln
        | cons a t' => simp
      refine ⟨fun h' => absurd h' hm, fun _ h' => absurd h' (by omega),
        fun _ _ => hNH, ?_, ?_, ?_, ?_⟩
      · rw [hNH]
        refine nodup_append_singleton _ t (hnd.sublist (List.tail_sublist l)) ?_
        exact fun hc => hm ((List.tail_sublist l).mem hc)
      · rw [hNH]; exact List.mem_append_right _ (by simp)
      · rw [hNH]; simp only [List.length_append, List.length_cons,
          List.length_nil]; omega
      · rw [hNH]; simp

/-- What `addToHistory` writes, observed through `fetchHistory`. -/
theorem fetch_addToHistory (s : TabManagerState) (p t : String) :
    fetchHistory (addToHistory s p t) p =
      { fetchHistory s p with
        history := historyStep (fetchHistory s p).history t
          (fetchHistory s p).maxSize,
        currentIndex :=
          ((historyStep (fetchHistory s p).history t
            (fetchHistory s p).maxSize).length : Int) - 1 } := by
  show (jsGet (addToHistory s p t).navigationHistories p).getD
      (defaultHistoryFor p) = _
  unfold addToHistory
  rw [jsGet_jsSet_self]
  rfl

/-- C6: `addToHistory` removes the prior occurrence of the id and appends
it at the end, drops the oldest entry when the length would exceed
`maxSize`, and sets `currentIndex = len - 1`; two consecutive adds of the
same id leave the length unchanged, and
`-1 ≤ currentIndex < len ≤ maxSize` holds afterwards.  Hypotheses: the
panel's (possibly default) history is duplicate-free, within its bound,
and has a positive bound — all invariants of reachable states. -/
theorem addToHistory_spec (s : TabManagerState) (p t : String)
    (hnd : (fetchHistory s p).history.Nodup)
    (hlen : (fetchHistory s p).history.length ≤ (fetchHistory s p).maxSize)
    (hpos : 0 < (fetchHistory s p).maxSize) :
    (t ∈ (fetchHistory s p).history →
      (fetchHistory (addToHistory s p t) p).history
        = (fetchHistory s p).history.filter (fun x => x ≠ t) ++ [t] ∧
      (fetchHistory (addToHistory s p t) p).history.length
        = (fetchHistory s p).history.length) ∧
    (t ∉ (fetchHistory s p).history →
      (fetchHistory s p).history.length < (fetchHistory s p).maxSize →
      (fetchHistory (addToHistory s p t) p).history
        = (fetchHistory s p).history ++ [t]) ∧
    (t ∉ (fetchHistory s p).history →
      (fetchHistory s p).history.length = (fetchHistory s p).maxSize →
      (fetchHistory (addToHistory s p t) p).history
        = (fetchHistory s p).history.tail ++ [t]) ∧
    (fetchHistory (addToHistory s p t) p).currentIndex
      = ((fetchHistory (addToHistory s p t) p).history.length : Int) - 1 ∧
    ((-1 : Int) ≤ (fetchHistory (addToHistory s p t) p).currentIndex ∧
      (fetchHistory (addToHistory s p t) p).currentIndex
        < ((fetchHistory (addToHistory s p t) p).history.length : Int) ∧
      (fetchHistory (addToHistory s p t) p).history.length
        ≤ (fetchHistory s p).maxSize) ∧
    (fetchHistory (addToHistory (addToHistory s p t) p t) p).history.length
      = (fetchHistory (addToHistory s p t) p).history.length := by
  have hstep := historyStep_spec (fetchHistory s p).history t
    (fetchHistory s p).maxSize hnd hlen hpos
  have hF := fetch_addToHistory s p t
  have hF2 := fetch_addToHistory (addToHistory s p t) p t
  rw [hF] at hF2
  rw [hF, hF2]
  dsimp only
  have hstep2 := historyStep_spec
    (historyStep (fetchHistory s p).history t (fetchHistory s p).maxSize) t
    (fetchHistory s p).maxSize hstep.2.2.2.1 hstep.2.2.2.2.2.1 hpos
  refine ⟨fun hm => (hstep.1 hm), hstep.2.1, hstep.2.2.1, rfl, ?_, ?_⟩
  · have hne := hstep.2.2.2.2.2.2
    have : 1 ≤ (historyStep (fetchHistory s p).history t
        (fetchHistory s p).maxSize).length := by
      cases hc : historyStep (fetchHistory s p).history t
          (fetchHistory s p).maxSize with
      | nil => exact absurd hc hne
      | cons a l => simp [hc]
    refine ⟨by omega, by omega, hstep.2.2.2.2.2.1⟩
  · exact (hstep2.1 hstep.2.2.2.2.1).2

/-- C6, witness: the concrete state's `left` history `["1", "2"]`, adding
the new id `"3"` twice. -/
theorem addToHistory_spec_witness :
    (fetchHistory exTM "left").history.Nodup ∧
    (fetchHistory exTM "left").history.length ≤ (fetchHistory exTM "left").maxSize ∧
    0 < (fetchHistory exTM "left").maxSize ∧
    (fetchHistory (addToHistory exTM "left" "3") "left").history
      = (fetchHistory exTM "left").history ++ ["3"] ∧
    (fetchHistory (addToHistory (addToHistory exTM "left" "3") "left" "3")
        "left").history.length
      = (fetchHistory (addToHistory exTM "left" "3") "left").history.length := by
  have h := addToHistory_spec exTM "left" "3" (by decide) (by decide) (by decide)
  exact ⟨by decide, by decide, by decide, h.2.1 (by decide) (by decide),
    h.2.2.2.2.2⟩

/-! ## Panel-tree search and update lemmas -/

mutual

theorem findPanelById_eq_none_iff (t : PanelNode) (pid : String) :
    findPanelById t pid = none ↔ pid ∉ allIds t := by
  match t with
  | .leaf i ts s m =>
    unfold findPanelById allIds
    by_cases h : i = pid
    · simp [h]
    · rw [if_neg h]
      constructor
      · intro _ hm
        exact h (List.mem_singleton.mp hm).symm
      · intro _
        rfl
  | .split i d cs s m =>
    unfold findPanelById allIds
    by_cases h : i = pid
    · simp [h]
    · rw [if_neg h]
      rw [findPanelInList_eq_none_iff cs pid]
      simp only [List.mem_cons, not_or]
      exact ⟨fun hn => ⟨fun hh => h hh.symm, hn⟩, fun hn => hn.2⟩

theorem findPanelInList_eq_none_iff (cs : List PanelNode) (pid : String) :
    findPanelInList cs pid = none ↔ pid ∉ idsForest cs := by
  match cs with
  | [] =>
    unfold findPanelInList idsForest
    simp
  | c :: rest =>
    unfold findPanelInList idsForest
    cases hc : findPanelById c pid with
    | some r =>
      have := (findPanelById_eq_none_iff c pid).not
      simp only [hc] at this
      simp only [List.mem_append, not_or]
      constructor
      · intro hn; cases hn
      · intro hn
        exact absurd (not_not.mp (this.mp (by simp))) hn.1
    | none =>
      have h1 := (findPanelById_eq_none_iff c pid).mp hc
      rw [findPanelInList_eq_none_iff rest pid]
      simp only [List.mem_append, not_or]
      exact ⟨fun hn => ⟨h1, hn⟩, fun hn => hn.2⟩

end

mutual

theorem updateNode_eq_self_of_not_mem (pid : String) (L : List Tab)
    (t : PanelNode) (h : pid ∉ allIds t) : updateNode pid L t = t := by
  match t with
  | .leaf i ts s m =>
    unfold updateNode
    rw [if_neg (fun hh : i = pid => h (by simp [allIds, hh]))]
  | .split i d cs s m =>
    unfold updateNode
    rw [updateForest_eq_self_of_not_mem pid L cs
      (fun hm => h (by simp [allIds, List.mem_cons, hm]))]

theorem updateForest_eq_self_of_not_mem (pid : String) (L : List Tab)
    (cs : List PanelNode) (h : pid ∉ idsForest cs) :
    updateForest pid L cs = cs := by
  match cs with
  | [] => rfl
  | c :: rest =>
    unfold updateForest
    rw [updateNode_eq_self_of_not_mem pid L c
      (fun hm => h (by simp [idsForest, List.mem_append, hm]))]
    rw [updateForest_eq_self_of_not_mem pid L rest
      (fun hm => h (by simp [idsForest, List.mem_append, hm]))]

end

mutual

theorem find_updateNode (pid : String) (L : List Tab) (t : PanelNode)
    (ts : List Tab) (sz ms : Option Nat)
    (h : findPanelById t pid = some (.leaf pid ts sz ms)) :
    findPanelById (updateNode pid L t) pid = some (.leaf pid L sz ms) := by
  match t with
  | .leaf i ts0 s m =>
    unfold findPanelById at h
    by_cases hi : i = pid
    · rw [if_pos hi] at h
      injection h with h
      cases h
      simp [updateNode, findPanelById]
    · rw [if_neg hi] at h
      cases h
  | .split i d cs s m =>
    unfold findPanelById at h
    by_cases hi : i = pid
    · rw [if_pos hi] at h
      injection h with h
      cases h
    · rw [if_neg hi] at h
      unfold updateNode findPanelById
      rw [if_neg hi]
      exact find_updateInList pid L cs ts sz ms h

theorem find_updateInList (pid : String) (L : List Tab)
    (cs : List PanelNode) (ts : List Tab) (sz ms : Option Nat)
    (h : findPanelInList cs pid = some (.leaf pid ts sz ms)) :
    findPanelInList (updateForest pid L cs) pid = some (.leaf pid L sz ms) := by
  match cs with
  | [] =>
    unfold findPanelInList at h
    cases h
  | c :: rest =>
    unfold findPanelInList at h
    cases hc : findPanelById c pid with
    | some r =>
      rw [hc] at h
      injection h with h
      unfold updateForest findPanelInList
      rw [find_updateNode pid L c ts sz ms (by rw [hc, h])]
    | none =>
      rw [hc] at h
      have hnm := (findPanelById_eq_none_iff c pid).mp hc
      unfold updateForest findPanelInList
      rw [updateNode_eq_self_of_not_mem pid L c hnm, hc]
      exact find_updateInList pid L rest ts sz ms h

end

theorem panelTabsAt_updatePanelTabs (t : PanelNode) (pid : String)
    (L ts : List Tab) (sz ms : Option Nat)
    (h : findPanelById t pid = some (.leaf pid ts sz ms)) :
    panelTabsAt (updatePanelTabs t pid L) pid = some L := by
  unfold panelTabsAt updatePanelTabs
  rw [find_updateNode pid L t ts sz ms h]
  rfl

mutual

theorem hasLeaf_mem_allIds (t : PanelNode) (pid : String)
    (h : hasLeafWithId t pid = true) : pid ∈ allIds t := by
  match t with
  | .leaf i ts s m =>
    unfold hasLeafWithId at h
    simp only [decide_eq_true_eq] at h
    simp [allIds, h]
  | .split i d cs s m =>
    unfold hasLeafWithId at h
    have := forestHasLeaf_mem_ids cs pid h
    simp [allIds, List.mem_cons, this]

theorem forestHasLeaf_mem_ids (cs : List PanelNode) (pid : String)
    (h : forestHasLeaf cs pid = true) : pid ∈ idsForest cs := by
  match cs with
  | [] =>
    unfold forestHasLeaf at h
    cases h
  | c :: rest =>
    unfold forestHasLeaf at h
    rcases Bool.or_eq_true_iff.mp h with h1 | h1
    · exact (by simp [idsForest, List.mem_append,
        hasLeaf_mem_allIds c pid h1] : pid ∈ idsForest (c :: rest))
    · exact (by simp [idsForest, List.mem_append,
        forestHasLeaf_mem_ids rest pid h1] : pid ∈ idsForest (c :: rest))

end

mutual

theorem splitNode_eq_self_of_no_leaf (pid : String) (dir : Direction)
    (tS cS dS : String) (t : PanelNode)
    (h : hasLeafWithId t pid = false) :
    splitNode pid dir tS cS dS t = t := by
  match t with
  | .leaf i ts s m =>
    unfold hasLeafWithId at h
    unfold splitNode
    rw [if_neg (by simpa using h)]
  | .split i d cs s m =>
    unfold hasLeafWithId at h
    unfold splitNode
    rw [splitForest_eq_self_of_no_leaf pid dir tS cS dS cs h]

theorem splitForest_eq_self_of_no_leaf (pid : String) (dir : Direction)
    (tS cS dS : String) (cs : List PanelNode)
    (h : forestHasLeaf cs pid = false) :
    splitForest pid dir tS cS dS cs = cs := by
  match cs with
  | [] => rfl
  | c :: rest =>
    unfold forestHasLeaf at h
    rcases Bool.or_eq_false_iff.mp h with ⟨h1, h2⟩
    unfold splitForest
    rw [splitNode_eq_self_of_no_leaf pid dir tS cS dS c h1]
    rw [splitForest_eq_self_of_no_leaf pid dir tS cS dS rest h2]

end

mutual

theorem find_splitNode (pid : String) (dir : Direction) (tS cS dS : String)
    (t : PanelNode) (ts : List Tab) (sz ms : Option Nat)
    (h : findPanelById t pid = some (.leaf pid ts sz ms)) :
    findPanelById (splitNode pid dir tS cS dS t) pid =
      some (.split pid dir
        [.leaf (pid ++ "-original") ts (some 50) (some 20),
         .leaf (pid ++ "-split-" ++ cS) [splitNewTab ts tS dS]
           (some 50) (some 20)]
        sz ms) := by
  match t with
  | .leaf i ts0 s m =>
    unfold findPanelById at h
    by_cases hi : i = pid
    · rw [if_pos hi] at h
      injection h with h
      cases h
      simp [splitNode, findPanelById]
    · rw [if_neg hi] at h
      cases h
  | .split i d cs s m =>
    unfold findPanelById at h
    by_cases hi : i = pid
    · rw [if_pos hi] at h
      injection h with h
      cases h
    · rw [if_neg hi] at h
      unfold splitNode findPanelById
      rw [if_neg hi]
      exact find_splitInList pid dir tS cS dS cs ts sz ms h

theorem find_splitInList (pid : String) (dir : Direction) (tS cS dS : String)
    (cs : List PanelNode) (ts : List Tab) (sz ms : Option Nat)
    (h : findPanelInList cs pid = some (.leaf pid ts sz ms)) :
    findPanelInList (splitForest pid dir tS cS dS cs) pid =
      some (.split pid dir
        [.leaf (pid ++ "-original") ts (some 50) (some 20),
         .leaf (pid ++ "-split-" ++ cS) [splitNewTab ts tS dS]
           (some 50) (some 20)]
        sz ms) := by
  match cs with
  | [] =>
    unfold findPanelInList at h
    cases h
  | c :: rest =>
    unfold findPanelInList at h
    cases hc : findPanelById c pid with
    | some r =>
      rw [hc] at h
      injection h with h
      unfold splitForest findPanelInList
      rw [find_splitNode pid dir tS cS dS c ts sz ms (by rw [hc, h])]
    | none =>
      rw [hc] at h
      have hnm := (findPanelById_eq_none_iff c pid).mp hc
      have hnl : hasLeafWithId c pid = false := by
        cases hl : hasLeafWithId c pid with
        | true => exact absurd (hasLeaf_mem_allIds c pid hl) hnm
        | false => rfl
      unfold splitForest findPanelInList
      rw [splitNode_eq_self_of_no_leaf pid dir tS cS dS c hnl, hc]
      exact find_splitInList pid dir tS cS dS rest ts sz ms h

end

/-! ## `splitPanel` -/

/-- C8: when `panelId` resolves to a leaf, `splitPanel` replaces it (in
place, observable under the same id) by a `Split` of the requested
direction with exactly two half-sized leaves — the first inheriting the
original ordered tab list, the second holding exactly one tab that is a
fresh-id duplicate of the leaf's active tab, or a fresh blank tab when no
tab is active; when no leaf has `panelId`, the tree is returned
unchanged. -/
theorem splitPanel_spec :
    (∀ (t : PanelNode) (pid : String) (dir : Direction) (tS cS dS : String),
      hasLeafWithId t pid = false → splitPanel t pid dir tS cS dS = t) ∧
    (∀ (t : PanelNode) (pid : String) (dir : Direction) (tS cS dS : String)
        (ts : List Tab) (sz ms : Option Nat),
      findPanelById t pid = some (.leaf pid ts sz ms) →
      findPanelById (splitPanel t pid dir tS cS dS) pid =
        some (.split pid dir
          [.leaf (pid ++ "-original") ts (some 50) (some 20),
           .leaf (pid ++ "-split-" ++ cS) [splitNewTab ts tS dS]
             (some 50) (some 20)]
          sz ms)) ∧
    (∀ (ts : List Tab) (tS dS : String) (a : Tab),
      ts.find? (fun tab => tab.isActive) = some a →
      splitNewTab ts tS dS = { a with id := tS, isActive := true }) ∧
    (∀ (ts : List Tab) (tS dS : String),
      ts.find? (fun tab => tab.isActive) = none →
      splitNewTab ts tS dS =
        { id := tS, title := "新标签页", isActive := true, isLocked := none,
          documentId := some dS, filePath := none }) := by
  refine ⟨?_, ?_, ?_, ?_⟩
  · intro t pid dir tS cS dS h
    exact splitNode_eq_self_of_no_leaf pid dir tS cS dS t h
  · intro t pid dir tS cS dS ts sz ms h
    exact find_splitNode pid dir tS cS dS t ts sz ms h
  · intro ts tS dS a h
    unfold splitNewTab
    rw [h]
  · intro ts tS dS h
    unfold splitNewTab
    rw [h]

/-- C8, witness: splitting a root leaf holding the single active tab `A`
horizontally (the specification's scenario). -/
theorem splitPanel_spec_witness :
    findPanelById (.leaf "root" [exTabA] none none) "root"
      = some (.leaf "root" [exTabA] none none) ∧
    ([exTabA].find? (fun tab => tab.isActive)) = some exTabA ∧
    findPanelById
        (splitPanel (.leaf "root" [exTabA] none none) "root"
          .horizontal "9" "9" "d9") "root"
      = some (.split "root" .horizontal
          [.leaf ("root" ++ "-original") [exTabA] (some 50) (some 20),
           .leaf ("root" ++ "-split-" ++ "9") [splitNewTab [exTabA] "9" "d9"]
             (some 50) (some 20)]
          none none) ∧
    splitNewTab [exTabA] "9" "d9" = { exTabA with id := "9", isActive := true } := by
  refine ⟨rfl, rfl, ?_, ?_⟩
  · exact splitPanel_spec.2.1 (.leaf "root" [exTabA] none none) "root"
      .horizontal "9" "9" "d9" [exTabA] none none rfl
  · exact splitPanel_spec.2.2.1 [exTabA] "9" "d9" exTabA rfl

/-! ## Active-tab bookkeeping -/

theorem countP_and_split {α : Type} (p q : α → Bool) (l : List α) :
    l.countP (fun x => p x && q x) + l.countP (fun x => p x && !q x)
      = l.countP p := by
  induction l with
  | nil => rfl
  | cons a t ih =>
    simp only [List.countP_cons]
    cases hp : p a <;> cases hq : q a <;> simp [hp, hq] <;> omega

theorem length_filter_key_ne {α β : Type} [DecidableEq β] (l : List α)
    (f : α → β) (y : β) (hnd : (l.map f).Nodup) (hy : y ∈ l.map f) :
    (l.filter (fun x => f x ≠ y)).length + 1 = l.length := by
  induction l with
  | nil => cases hy
  | cons a t ih =>
    rw [List.map_cons] at hnd hy
    rcases List.nodup_cons.mp hnd with ⟨hat, hndt⟩
    by_cases hay : f a = y
    · rw [List.filter_cons_of_neg (by simp [hay])]
      rw [List.filter_eq_self.mpr (fun b hb => by
        simp only [ne_eq, decide_eq_true_eq]
        intro hby
        exact hat (by rw [hay, ← hby]; exact List.mem_map_of_mem f hb))]
      simp
    · have hyt : y ∈ t.map f := by
        rcases List.mem_cons.mp hy with h | h
        · exact absurd h.symm hay
        · exact h
      rw [List.filter_cons_of_pos (by simp [hay])]
      simp only [List.length_cons]
      rw [← ih hndt hyt]

/-- After removing the tab with id `tid` from a duplicate-free list with
exactly one active tab, the close handler's bookkeeping keeps exactly one
tab active in every branch. -/
theorem close_keeps_one_active (ts : List Tab) (tid : String)
    (hnd : (ts.map (fun tab => tab.id)).Nodup) (hact : countActive ts = 1) :
    (ts.find? (fun tab => tab.id = tid) = none →
      countActive (ts.filter (fun tab => tab.id ≠ tid)) = 1) ∧
    (∀ ct, ts.find? (fun tab => tab.id = tid) = some ct →
      ct.isActive = false →
      countActive (ts.filter (fun tab => tab.id ≠ tid)) = 1) ∧
    (∀ ct, ts.find? (fun tab => tab.id = tid) = some ct →
      ct.isActive = true →
      ∀ a r, ts.filter (fun tab => tab.id ≠ tid) = a :: r →
      countActive (activateHead (a :: r)) = 1) := by
  have hsplit := countP_and_split (fun x : Tab => x.isActive)
    (fun x : Tab => decide (x.id ≠ tid)) ts
  have hq : (fun x : Tab => x.isActive && !(decide (x.id ≠ tid)))
      = (fun x : Tab => x.isActive && decide (x.id = tid)) := by
    funext x
    simp [decide_not]
  rw [hq] at hsplit
  have hAB : countActive (ts.filter (fun tab => tab.id ≠ tid)) +
      ts.countP (fun x => x.isActive && decide (x.id = tid)) = 1 := by
    unfold countActive at hact ⊢
    rw [List.countP_filter]
    omega
  refine ⟨?_, ?_, ?_⟩
  · intro hf
    have hB : ts.countP (fun x => x.isActive && decide (x.id = tid)) = 0 := by
      rw [List.countP_eq_zero]
      intro x hx
      have hnx := List.find?_eq_none.mp hf x hx
      simp only [decide_eq_true_eq] at hnx
      simp [hnx]
    omega
  · intro ct hf hcta
    have hct_mem := List.mem_of_find?_eq_some hf
    have hct_id : ct.id = tid := by
      have := List.find?_some hf
      simpa using this
    have hB : ts.countP (fun x => x.isActive && decide (x.id = tid)) = 0 := by
      rw [List.countP_eq_zero]
      intro x hx
      simp only [Bool.and_eq_true, decide_eq_true_eq, not_and]
      intro hxa hxid
      have hx_eq : x = ct :=
        List.inj_on_of_nodup_map hnd hx hct_mem (by rw [hxid, hct_id])
      rw [hx_eq] at hxa
      rw [hcta] at hxa
      cases hxa
    omega
  · intro ct hf hcta a r hfil
    have hct_mem := List.mem_of_find?_eq_some hf
    have hct_id : ct.id = tid := by
      have := List.find?_some hf
      simpa using this
    have hB : 0 < ts.countP (fun x => x.isActive && decide (x.id = tid)) := by
      rw [List.countP_pos_iff]
      exact ⟨ct, hct_mem, by simp [hcta, hct_id]⟩
    have hA : countActive (ts.filter (fun tab => tab.id ≠ tid)) = 0 := by omega
    rw [hfil] at hA
    have ha0 : r.countP (fun tab => tab.isActive) = 0 := by
      unfold countActive at hA
      rw [List.countP_cons] at hA
      omega
    unfold countActive activateHead
    rw [List.countP_cons]
    simp [ha0]

/-- `splitNewTab` always produces an active tab. -/
theorem splitNewTab_isActive (ts : List Tab) (tS dS : String) :
    (splitNewTab ts tS dS).isActive = true := by
  unfold splitNewTab
  cases ts.find? (fun tab => tab.isActive) <;> rfl

/-- C4: every tab-list mutation on a leaf keeps exactly one tab active
when the resulting list is non-empty: activation-by-id (of an id carried
by exactly one tab) activates that tab and clears all siblings; adding
and duplicating append an inactive tab; closing re-activates index 0 when
the active tab was removed; splitting produces two leaves each holding
exactly one active tab.  Preconditions are the reachable-state
invariants: one active tab before the mutation, and duplicate-free tab
ids where the mutation looks an id up. -/
theorem active_tab_invariant :
    (∀ (t : PanelNode) (pid tid : String) (ts : List Tab) (sz ms : Option Nat),
      findPanelById t pid = some (.leaf pid ts sz ms) →
      ts.countP (fun tab => tab.id == tid) = 1 →
      panelTabsAt (handleActivateTab t pid tid) pid
        = some (ts.map (fun tab => { tab with isActive := tab.id == tid })) ∧
      countActive (ts.map (fun tab => { tab with isActive := tab.id == tid }))
        = 1 ∧
      ∀ tab ∈ ts.map (fun tab => { tab with isActive := tab.id == tid }),
        tab.isActive = (tab.id == tid)) ∧
    (∀ (t : PanelNode) (pid stamp docId : String) (ts : List Tab)
        (sz ms : Option Nat),
      findPanelById t pid = some (.leaf pid ts sz ms) →
      countActive ts = 1 →
      panelTabsAt (handleAddTab t pid stamp docId) pid
        = some (ts ++ [{ id := stamp, title := "新标签页", isActive := false, isLocked := none, documentId := some docId, filePath := none }]) ∧
      countActive (ts ++ [{ id := stamp, title := "新标签页", isActive := false, isLocked := none, documentId := some docId, filePath := none }])
        = 1) ∧
    (∀ (t : PanelNode) (pid tid stamp : String) (ts : List Tab)
        (sz ms : Option Nat),
      findPanelById t pid = some (.leaf pid ts sz ms) →
      (ts.map (fun tab => tab.id)).Nodup → countActive ts = 1 →
      ts.filter (fun tab => tab.id ≠ tid) ≠ [] →
      ∀ L, panelTabsAt (handleCloseTab t pid tid stamp) pid = some L →
        countActive L = 1) ∧
    (∀ (t : PanelNode) (pid tid stamp : String) (ts : List Tab)
        (sz ms : Option Nat) (tg : Tab),
      findPanelById t pid = some (.leaf pid ts sz ms) →
      countActive ts = 1 →
      ts.find? (fun tab => tab.id = tid) = some tg →
      panelTabsAt (handleDuplicate t pid tid stamp) pid
        = some (ts ++ [{ tg with id := stamp, title := tg.title ++ " - 副本", isActive := false }]) ∧
      countActive (ts ++ [{ tg with id := stamp, title := tg.title ++ " - 副本", isActive := false }]) = 1) ∧
    (∀ (ts : List Tab) (tS dS : String),
      countActive [splitNewTab ts tS dS] = 1) := by
  refine ⟨?_, ?_, ?_, ?_, ?_⟩
  · intro t pid tid ts sz ms hfind hcount
    have hres : handleActivateTab t pid tid
        = updatePanelTabs t pid
            (ts.map (fun tab => { tab with isActive := tab.id == tid })) := by
      simp only [handleActivateTab, hfind, Option.some_bind, nodeTabs]
    refine ⟨?_, ?_, ?_⟩
    · rw [hres]
      exact panelTabsAt_updatePanelTabs t pid _ ts sz ms hfind
    · unfold countActive
      rw [List.countP_map]
      exact hcount
    · intro tab hmem
      rcases List.mem_map.mp hmem with ⟨x, _, rfl⟩
      rfl
  · intro t pid stamp docId ts sz ms hfind hact
    have hres : handleAddTab t pid stamp docId
        = updatePanelTabs t pid
            (ts ++ [{ id := stamp, title := "新标签页", isActive := false, isLocked := none, documentId := some docId, filePath := none }]) := by
      simp only [handleAddTab, hfind, Option.some_bind, nodeTabs]
    refine ⟨?_, ?_⟩
    · rw [hres]
      exact panelTabsAt_updatePanelTabs t pid _ ts sz ms hfind
    · unfold countActive at hact ⊢
      rw [List.countP_append, hact]
      rfl
  · intro t pid tid stamp ts sz ms hfind hnd hact hne L hL
    have hcl := close_keeps_one_active ts tid hnd hact
    have hE : (ts.filter (fun tab => tab.id ≠ tid)).isEmpty = false := by
      cases hE : (ts.filter (fun tab => tab.id ≠ tid)).isEmpty with
      | true => exact absurd (List.isEmpty_iff.mp hE) hne
      | false => rfl
    cases hf : ts.find? (fun tab => tab.id = tid) with
    | none =>
      have hres : handleCloseTab t pid tid stamp
          = updatePanelTabs t pid (ts.filter (fun tab => tab.id ≠ tid)) := by
        simp only [handleCloseTab, hfind, Option.some_bind, nodeTabs, hE, hf]
        simp
      rw [hres, panelTabsAt_updatePanelTabs t pid _ ts sz ms hfind] at hL
      injection hL with hL
      rw [← hL]
      exact hcl.1 hf
    | some ct =>
      cases hcta : ct.isActive with
      | false =>
        have hres : handleCloseTab t pid tid stamp
            = updatePanelTabs t pid (ts.filter (fun tab => tab.id ≠ tid)) := by
          simp only [handleCloseTab, hfind, Option.some_bind, nodeTabs, hE, hf,
            hcta]
          simp
        rw [hres, panelTabsAt_updatePanelTabs t pid _ ts sz ms hfind] at hL
        injection hL with hL
        rw [← hL]
        exact hcl.2.1 ct hf hcta
      | true =>
        have hres : handleCloseTab t pid tid stamp
            = updatePanelTabs t pid
                (activateHead (ts.filter (fun tab => tab.id ≠ tid))) := by
          simp only [handleCloseTab, hfind, Option.some_bind, nodeTabs, hE, hf,
            hcta]
          simp
        rw [hres, panelTabsAt_updatePanelTabs t pid _ ts sz ms hfind] at hL
        injection hL with hL
        rw [← hL]
        cases hfil : ts.filter (fun tab => tab.id ≠ tid) with
        | nil => exact absurd hfil hne
        | cons a r => exact hcl.2.2 ct hf hcta a r hfil
  · intro t pid tid stamp ts sz ms tg hfind hact hfound
    have hres : handleDuplicate t pid tid stamp
        = updatePanelTabs t pid
            (ts ++ [{ tg with id := stamp, title := tg.title ++ " - 副本", isActive := false }]) := by
      simp only [handleDuplicate, hfind, Option.some_bind, nodeTabs, hfound]
    refine ⟨?_, ?_⟩
    · rw [hres]
      exact panelTabsAt_updatePanelTabs t pid _ ts sz ms hfind
    · unfold countActive at hact ⊢
      rw [List.countP_append, hact]
      rfl
  · intro ts tS dS
    unfold countActive
    rw [List.countP_cons]
    simp [splitNewTab_isActive]

/-- C4, witness: activating tab `"3"` in a three-tab leaf. -/
theorem active_tab_invariant_witness :
    findPanelById (.leaf "left" exTabs3 none none) "left"
      = some (.leaf "left" exTabs3 none none) ∧
    exTabs3.countP (fun tab => tab.id == "3") = 1 ∧
    panelTabsAt (handleActivateTab (.leaf "left" exTabs3 none none) "left" "3")
        "left"
      = some (exTabs3.map (fun tab => { tab with isActive := tab.id == "3" })) ∧
    countActive (exTabs3.map (fun tab => { tab with isActive := tab.id == "3" }))
      = 1 := by
  have h := active_tab_invariant.1 (.leaf "left" exTabs3 none none) "left" "3"
    exTabs3 none none rfl (by decide)
  exact ⟨rfl, by decide, h.1, h.2.1⟩

/-! ## Tab close policy -/

/-- C7: closing a tab in a leaf: if tabs remain and the closed tab was
the active one, the tab at index 0 of the remaining list becomes active
and the length drops by one; if none remain and the leaf is the tree
root (or the whole tree is that single leaf), its list is replaced with
one fresh blank active tab; otherwise the leaf is removed from the tree
via `removePanelNode`. -/
theorem closeTab_policy :
    (∀ (t : PanelNode) (pid tid stamp : String) (ts : List Tab)
        (sz ms : Option Nat) (ct a : Tab) (r : List Tab),
      findPanelById t pid = some (.leaf pid ts sz ms) →
      (ts.map (fun tab => tab.id)).Nodup →
      ts.find? (fun tab => tab.id = tid) = some ct →
      ct.isActive = true →
      ts.filter (fun tab => tab.id ≠ tid) = a :: r →
      handleCloseTab t pid tid stamp
        = updatePanelTabs t pid ({ a with isActive := true } :: r) ∧
      panelTabsAt (handleCloseTab t pid tid stamp) pid
        = some ({ a with isActive := true } :: r) ∧
      ({ a with isActive := true } :: r).length + 1 = ts.length) ∧
    (∀ (t : PanelNode) (pid tid stamp : String) (ts : List Tab)
        (sz ms : Option Nat),
      findPanelById t pid = some (.leaf pid ts sz ms) →
      ts.filter (fun tab => tab.id ≠ tid) = [] →
      nodeId t = pid ∨ isLeafNode t = true →
      handleCloseTab t pid tid stamp = updatePanelTabs t pid [blankTab stamp] ∧
      panelTabsAt (handleCloseTab t pid tid stamp) pid
        = some [blankTab stamp]) ∧
    (∀ (t : PanelNode) (pid tid stamp : String) (ts : List Tab)
        (sz ms : Option Nat),
      findPanelById t pid = some (.leaf pid ts sz ms) →
      ts.filter (fun tab => tab.id ≠ tid) = [] →
      ¬(nodeId t = pid ∨ isLeafNode t = true) →
      handleCloseTab t pid tid stamp = removePanelNode t pid stamp) := by
  refine ⟨?_, ?_, ?_⟩
  · intro t pid tid stamp ts sz ms ct a r hfind hnd hf hcta hfil
    have hE : (ts.filter (fun tab => tab.id ≠ tid)).isEmpty = false := by
      rw [hfil]
      rfl
    have hres : handleCloseTab t pid tid stamp
        = updatePanelTabs t pid
            (activateHead (ts.filter (fun tab => tab.id ≠ tid))) := by
      simp only [handleCloseTab, hfind, Option.some_bind, nodeTabs, hE, hf,
        hcta]
      simp
    have h1 : handleCloseTab t pid tid stamp
        = updatePanelTabs t pid ({ a with isActive := true } :: r) := by
      rw [hres, hfil]
      rfl
    have hmem : tid ∈ ts.map (fun tab => tab.id) := by
      refine List.mem_map.mpr ⟨ct, List.mem_of_find?_eq_some hf, ?_⟩
      have := List.find?_some hf
      simpa using this
    have hlen := length_filter_key_ne ts (fun tab => tab.id) tid hnd hmem
    rw [hfil] at hlen
    refine ⟨h1, ?_, ?_⟩
    · rw [h1]
      exact panelTabsAt_updatePanelTabs t pid _ ts sz ms hfind
    · simpa using hlen
  · intro t pid tid stamp ts sz ms hfind hfil hroot
    have hE : (ts.filter (fun tab => tab.id ≠ tid)).isEmpty = true := by
      rw [hfil]
      rfl
    have hres : handleCloseTab t pid tid stamp
        = updatePanelTabs t pid [blankTab stamp] := by
      simp only [handleCloseTab, hfind, Option.some_bind, nodeTabs, hE]
      simp only [if_true]
      rw [if_pos hroot]
    refine ⟨hres, ?_⟩
    rw [hres]
    exact panelTabsAt_updatePanelTabs t pid _ ts sz ms hfind
  · intro t pid tid stamp ts sz ms hfind hfil hroot
    have hE : (ts.filter (fun tab => tab.id ≠ tid)).isEmpty = true := by
      rw [hfil]
      rfl
    simp only [handleCloseTab, hfind, Option.some_bind, nodeTabs, hE]
    simp only [if_true]
    rw [if_neg hroot]

/-- C7, witness: a single leaf holding tabs `1, 2, 3` with tab `2`
active; closing tab `2` activates tab `1` (index-0 rule) and leaves two
tabs (the specification's scenario). -/
theorem closeTab_policy_witness :
    findPanelById (.leaf "root" exTabs3 none none) "root"
      = some (.leaf "root" exTabs3 none none) ∧
    (exTabs3.map (fun tab => tab.id)).Nodup ∧
    exTabs3.find? (fun tab => tab.id = "2")
      = some { id := "2", title := "two", isActive := true, isLocked := none,
               documentId := none, filePath := none } ∧
    exTabs3.filter (fun tab => tab.id ≠ "2")
      = [{ id := "1", title := "one", isActive := false, isLocked := none,
           documentId := none, filePath := none },
         { id := "3", title := "three", isActive := false, isLocked := none,
           documentId := none, filePath := none }] ∧
    panelTabsAt
        (handleCloseTab (.leaf "root" exTabs3 none none) "root" "2" "99")
        "root"
      = some [{ id := "1", title := "one", isActive := true, isLocked := none,
                documentId := none, filePath := none },
              { id := "3", title := "three", isActive := false,
                isLocked := none, documentId := none, filePath := none }] ∧
    (2 : Nat) + 1 = exTabs3.length := by
  have h := closeTab_policy.1 (.leaf "root" exTabs3 none none) "root" "2" "99"
    exTabs3 none none
    { id := "2", title := "two", isActive := true, isLocked := none,
      documentId := none, filePath := none }
    { id := "1", title := "one", isActive := false, isLocked := none,
      documentId := none, filePath := none }
    [{ id := "3", title := "three", isActive := false, isLocked := none,
       documentId := none, filePath := none }]
    rfl (by decide) (by decide) rfl (by decide)
  exact ⟨rfl, by decide, by decide, by decide, h.2.1, by decide⟩

/-! ## Split-node invariant under `splitPanel` / `removePanelNode` -/

theorem nodeId_mem_allIds (n : PanelNode) : nodeId n ∈ allIds n := by
  cases n <;> simp [nodeId, allIds]

theorem noSmallSplit_imp_nonRoot (t : PanelNode)
    (h : noSmallSplit t = true) : nonRootSplitsOk t = true := by
  cases t with
  | leaf i ts s m => rfl
  | split i d cs s m =>
    unfold noSmallSplit at h
    exact (Bool.and_eq_true_iff.mp h).2

theorem noSmallSplit_setSize (n : PanelNode) (s : Option Nat) :
    noSmallSplit (setSize n s) = noSmallSplit n := by
  cases n <;> rfl

theorem allIds_setSize (n : PanelNode) (s : Option Nat) :
    allIds (setSize n s) = allIds n := by
  cases n <;> rfl

theorem splitForest_length (pid : String) (dir : Direction)
    (tS cS dS : String) (cs : List PanelNode) :
    (splitForest pid dir tS cS dS cs).length = cs.length := by
  induction cs with
  | nil => rfl
  | cons c rest ih =>
    unfold splitForest
    simp only [List.length_cons, ih]

mutual

theorem splitNode_noSmallSplit (pid : String) (dir : Direction)
    (tS cS dS : String) (n : PanelNode) (h : noSmallSplit n = true) :
    noSmallSplit (splitNode pid dir tS cS dS n) = true := by
  match n with
  | .leaf i ts s m =>
    unfold splitNode
    by_cases hi : i = pid
    · rw [if_pos hi]
      rfl
    · rw [if_neg hi]
      rfl
  | .split i d cs s m =>
    unfold noSmallSplit at h
    rcases Bool.and_eq_true_iff.mp h with ⟨hlen, hforest⟩
    unfold splitNode noSmallSplit
    rw [splitForest_noSmallSplit pid dir tS cS dS cs hforest]
    rw [splitForest_length]
    simp only [hlen, Bool.and_self]

theorem splitForest_noSmallSplit (pid : String) (dir : Direction)
    (tS cS dS : String) (cs : List PanelNode)
    (h : noSmallSplitForest cs = true) :
    noSmallSplitForest (splitForest pid dir tS cS dS cs) = true := by
  match cs with
  | [] => rfl
  | c :: rest =>
    unfold noSmallSplitForest at h
    rcases Bool.and_eq_true_iff.mp h with ⟨hc, hrest⟩
    unfold splitForest noSmallSplitForest
    rw [splitNode_noSmallSplit pid dir tS cS dS c hc]
    rw [splitForest_noSmallSplit pid dir tS cS dS rest hrest]
    rfl

end

theorem splitPanel_nonRootOk (t : PanelNode) (pid : String) (dir : Direction)
    (tS cS dS : String) (h : nonRootSplitsOk t = true) :
    nonRootSplitsOk (splitPanel t pid dir tS cS dS) = true := by
  cases t with
  | leaf i ts s m =>
    unfold splitPanel splitNode
    by_cases hi : i = pid
    · rw [if_pos hi]
      rfl
    · rw [if_neg hi]
      rfl
  | split i d cs s m =>
    unfold nonRootSplitsOk at h
    unfold splitPanel splitNode nonRootSplitsOk
    exact splitForest_noSmallSplit pid dir tS cS dS cs h

mutual

theorem splitNode_ids (pid : String) (dir : Direction) (tS cS dS : String)
    (n : PanelNode) (hnd : (allIds n).Nodup)
    (h1 : (pid ++ "-original") ∉ allIds n)
    (h2 : (pid ++ "-split-" ++ cS) ∉ allIds n)
    (h3 : pid ++ "-original" ≠ pid ++ "-split-" ++ cS) :
    (allIds (splitNode pid dir tS cS dS n)).Nodup ∧
    ∀ x ∈ allIds (splitNode pid dir tS cS dS n),
      x ∈ allIds n ∨ x = pid ++ "-original" ∨ x = pid ++ "-split-" ++ cS := by
  match n with
  | .leaf i ts s m =>
    by_cases hi : i = pid
    · subst hi
      have e1 : i ++ "-original" ≠ i := fun hh => h1 (by simp [allIds, hh])
      have e2 : i ++ "-split-" ++ cS ≠ i := fun hh => h2 (by simp [allIds, hh])
      unfold splitNode
      rw [if_pos rfl]
      have hAll : allIds (PanelNode.split i dir
          [PanelNode.leaf (i ++ "-original") ts (some 50) (some 20),
           PanelNode.leaf (i ++ "-split-" ++ cS) [splitNewTab ts tS dS]
             (some 50) (some 20)] s m)
          = [i, i ++ "-original", i ++ "-split-" ++ cS] := rfl
      rw [hAll]
      constructor
      · refine List.nodup_cons.mpr ⟨?_, List.nodup_cons.mpr
          ⟨?_, List.nodup_singleton _⟩⟩
        · intro hm
          rcases List.mem_cons.mp hm with hh | hh
          · exact e1 hh.symm
          · exact e2 (List.mem_singleton.mp hh).symm
        · intro hm
          exact h3 (List.mem_singleton.mp hm)
      · intro x hx
        rcases List.mem_cons.mp hx with rfl | hx
        · exact Or.inl (by simp [allIds])
        rcases List.mem_cons.mp hx with rfl | hx
        · exact Or.inr (Or.inl rfl)
        · exact Or.inr (Or.inr (List.mem_singleton.mp hx))
    · unfold splitNode
      rw [if_neg hi]
      exact ⟨hnd, fun x hx => Or.inl hx⟩
  | .split i d cs s m =>
    have hnd2 : (i :: idsForest cs).Nodup := hnd
    rcases List.nodup_cons.mp hnd2 with ⟨hi_nin, hndf⟩
    have h1f : (pid ++ "-original") ∉ idsForest cs :=
      fun hm => h1 (List.mem_cons_of_mem i hm)
    have h2f : (pid ++ "-split-" ++ cS) ∉ idsForest cs :=
      fun hm => h2 (List.mem_cons_of_mem i hm)
    obtain ⟨hfn, hfs⟩ := splitForest_ids pid dir tS cS dS cs hndf h1f h2f h3
    constructor
    · show (i :: idsForest (splitForest pid dir tS cS dS cs)).Nodup
      refine List.nodup_cons.mpr ⟨?_, hfn⟩
      intro hm
      rcases hfs i hm with hin | hcase | hcase
      · exact hi_nin hin
      · refine h1 ?_
        show pid ++ "-original" ∈ i :: idsForest cs
        rw [← hcase]
        exact List.mem_cons_self i (idsForest cs)
      · refine h2 ?_
        show pid ++ "-split-" ++ cS ∈ i :: idsForest cs
        rw [← hcase]
        exact List.mem_cons_self i (idsForest cs)
    · intro x hx
      have hx2 : x = i ∨ x ∈ idsForest (splitForest pid dir tS cS dS cs) :=
        List.mem_cons.mp hx
      rcases hx2 with rfl | hx2
      · exact Or.inl (List.mem_cons_self x (idsForest cs))
      · rcases hfs x hx2 with hin | h | h
        · exact Or.inl (List.mem_cons_of_mem i hin)
        · exact Or.inr (Or.inl h)
        · exact Or.inr (Or.inr h)

theorem splitForest_ids (pid : String) (dir : Direction) (tS cS dS : String)
    (cs : List PanelNode) (hnd : (idsForest cs).Nodup)
    (h1 : (pid ++ "-original") ∉ idsForest cs)
    (h2 : (pid ++ "-split-" ++ cS) ∉ idsForest cs)
    (h3 : pid ++ "-original" ≠ pid ++ "-split-" ++ cS) :
    (idsForest (splitForest pid dir tS cS dS cs)).Nodup ∧
    ∀ x ∈ idsForest (splitForest pid dir tS cS dS cs),
      x ∈ idsForest cs ∨ x = pid ++ "-original" ∨ x = pid ++ "-split-" ++ cS := by
  match cs with
  | [] =>
    refine ⟨List.nodup_nil, fun x hx => absurd hx ?_⟩
    exact List.not_mem_nil x
  | c :: rest =>
    have hndA : (allIds c ++ idsForest rest).Nodup := hnd
    rcases List.nodup_append.mp hndA with ⟨hndc, hndr, hdisj⟩
    have h1c : (pid ++ "-original") ∉ allIds c :=
      fun hm => h1 (List.mem_append_left _ hm)
    have h2c : (pid ++ "-split-" ++ cS) ∉ allIds c :=
      fun hm => h2 (List.mem_append_left _ hm)
    have h1r : (pid ++ "-original") ∉ idsForest rest :=
      fun hm => h1 (List.mem_append_right _ hm)
    have h2r : (pid ++ "-split-" ++ cS) ∉ idsForest rest :=
      fun hm => h2 (List.mem_append_right _ hm)
    have hEq : idsForest (splitForest pid dir tS cS dS (c :: rest))
        = allIds (splitNode pid dir tS cS dS c)
          ++ idsForest (splitForest pid dir tS cS dS rest) := rfl
    cases hc : hasLeafWithId c pid with
    | true =>
      have hpid_c : pid ∈ allIds c := hasLeaf_mem_allIds c pid hc
      have hrest_nl : forestHasLeaf rest pid = false := by
        cases hfl : forestHasLeaf rest pid with
        | false => rfl
        | true =>
          exact absurd (forestHasLeaf_mem_ids rest pid hfl) (hdisj hpid_c)
      have hrest_eq : splitForest pid dir tS cS dS rest = rest :=
        splitForest_eq_self_of_no_leaf pid dir tS cS dS rest hrest_nl
      obtain ⟨hcn, hcs⟩ := splitNode_ids pid dir tS cS dS c hndc h1c h2c h3
      rw [hEq, hrest_eq]
      constructor
      · refine List.nodup_append.mpr ⟨hcn, hndr, ?_⟩
        intro a ha har
        rcases hcs a ha with hin | hfr | hfr
        · exact hdisj hin har
        · exact h1r (hfr ▸ har)
        · exact h2r (hfr ▸ har)
      · intro x hx
        rcases List.mem_append.mp hx with hx | hx
        · rcases hcs x hx with hin | h | h
          · exact Or.inl (List.mem_append_left _ hin)
          · exact Or.inr (Or.inl h)
          · exact Or.inr (Or.inr h)
        · exact Or.inl (List.mem_append_right _ hx)
    | false =>
      have hc_eq : splitNode pid dir tS cS dS c = c :=
        splitNode_eq_self_of_no_leaf pid dir tS cS dS c hc
      obtain ⟨hrn, hrs⟩ := splitForest_ids pid dir tS cS dS rest hndr h1r h2r h3
      rw [hEq, hc_eq]
      constructor
      · refine List.nodup_append.mpr ⟨hndc, hrn, ?_⟩
        intro a ha har
        rcases hrs a har with hin | hfr | hfr
        · exact hdisj ha hin
        · exact h1c (hfr ▸ ha)
        · exact h2c (hfr ▸ ha)
      · intro x hx
        rcases List.mem_append.mp hx with hx | hx
        · exact Or.inl (List.mem_append_left _ hx)
        · rcases hrs x hx with hin | h | h
          · exact Or.inl (List.mem_append_right _ hin)
          · exact Or.inr (Or.inl h)
          · exact Or.inr (Or.inr h)

end

theorem removeForest_cons_none (pid : String) (c : PanelNode)
    (rest : List PanelNode) (hc : removeNode pid true c = none) :
    removeForest pid (c :: rest) = removeForest pid rest := by
  conv_lhs => unfold removeForest
  rw [hc]

theorem removeForest_cons_some (pid : String) (c : PanelNode)
    (rest : List PanelNode) (r : PanelNode)
    (hc : removeNode pid true c = some r) :
    removeForest pid (c :: rest) = r :: removeForest pid rest := by
  conv_lhs => unfold removeForest
  rw [hc]

theorem removeNode_eq_none_iff (pid : String) (hp : Bool) (n : PanelNode) :
    removeNode pid hp n = none ↔ nodeId n = pid := by
  cases n with
  | leaf i ts s m =>
    unfold removeNode nodeId
    by_cases h : i = pid
    · simp [h]
    · simp [h]
  | split i d cs s m =>
    unfold removeNode nodeId
    by_cases h : i = pid
    · simp [h]
    · rw [if_neg h]
      constructor
      · intro hc
        exfalso
        rcases hF : removeForest pid cs with _ | ⟨c1, _ | ⟨c2, r2⟩⟩ <;>
          rw [hF] at hc
        · simp at hc
        · cases hp <;> simp at hc
        · simp at hc
      · intro hc
        exact absurd hc h

theorem nodeId_mem_idsForest (cs : List PanelNode) :
    ∀ c ∈ cs, nodeId c ∈ idsForest cs := by
  induction cs with
  | nil => intro c hc; cases hc
  | cons c rest ih =>
    intro c' hc'
    show nodeId c' ∈ allIds c ++ idsForest rest
    rcases List.mem_cons.mp hc' with rfl | hc'
    · exact List.mem_append_left _ (nodeId_mem_allIds c')
    · exact List.mem_append_right _ (ih c' hc')

mutual

theorem removeNode_ids_sublist (pid : String) (hp : Bool) (n : PanelNode)
    (r : PanelNode) (h : removeNode pid hp n = some r) :
    List.Sublist (allIds r) (allIds n) := by
  match n with
  | .leaf i ts s m =>
    unfold removeNode at h
    by_cases hi : i = pid
    · rw [if_pos hi] at h
      cases h
    · rw [if_neg hi] at h
      injection h with h
      rw [← h]
  | .split i d cs s m =>
    unfold removeNode at h
    by_cases hi : i = pid
    · rw [if_pos hi] at h
      cases h
    · rw [if_neg hi] at h
      have hsub := removeForest_ids_sublist pid cs
      rcases hF : removeForest pid cs with _ | ⟨c1, _ | ⟨c2, r2⟩⟩ <;>
        rw [hF] at h hsub
      · injection h with h
        rw [← h]
        exact List.Sublist.cons₂ i hsub
      · have e : idsForest [c1] = allIds c1 := by
          simp [idsForest]
        rw [e] at hsub
        cases hp with
        | true =>
          simp only [if_true] at h
          injection h with h
          rw [← h, allIds_setSize]
          show List.Sublist (allIds c1) (i :: idsForest cs)
          exact hsub.trans (List.sublist_cons_self i (idsForest cs))
        | false =>
          simp only [Bool.false_eq_true, if_false] at h
          injection h with h
          rw [← h]
          show List.Sublist (i :: idsForest [c1]) (i :: idsForest cs)
          rw [e]
          exact List.Sublist.cons₂ i hsub
      · injection h with h
        rw [← h]
        exact List.Sublist.cons₂ i hsub

theorem removeForest_ids_sublist (pid : String) (cs : List PanelNode) :
    List.Sublist (idsForest (removeForest pid cs)) (idsForest cs) := by
  match cs with
  | [] => exact List.Sublist.refl _
  | c :: rest =>
    have ih := removeForest_ids_sublist pid rest
    cases hc : removeNode pid true c with
    | none =>
      rw [removeForest_cons_none pid c rest hc]
      show List.Sublist (idsForest (removeForest pid rest))
        (allIds c ++ idsForest rest)
      exact ih.trans (List.sublist_append_right _ _)
    | some r =>
      rw [removeForest_cons_some pid c rest r hc]
      show List.Sublist (allIds r ++ idsForest (removeForest pid rest))
        (allIds c ++ idsForest rest)
      exact List.Sublist.append (removeNode_ids_sublist pid true c r hc) ih

end

theorem removeForest_length_of_no_match (pid : String) (cs : List PanelNode)
    (h : ∀ c ∈ cs, nodeId c ≠ pid) :
    (removeForest pid cs).length = cs.length := by
  induction cs with
  | nil => rfl
  | cons c rest ih =>
    cases hc : removeNode pid true c with
    | none =>
      exact absurd ((removeNode_eq_none_iff pid true c).mp hc)
        (h c (List.mem_cons_self c rest))
    | some r =>
      rw [removeForest_cons_some pid c rest r hc]
      simp only [List.length_cons]
      rw [ih (fun c' hc' => h c' (List.mem_cons_of_mem c hc'))]

theorem removeForest_length_ge (pid : String) (cs : List PanelNode)
    (hnd : (idsForest cs).Nodup) :
    cs.length ≤ (removeForest pid cs).length + 1 := by
  induction cs with
  | nil => simp
  | cons c rest ih =>
    have hndA : (allIds c ++ idsForest rest).Nodup := hnd
    rcases List.nodup_append.mp hndA with ⟨hndc, hndr, hdisj⟩
    cases hc : removeNode pid true c with
    | none =>
      have hid : nodeId c = pid := (removeNode_eq_none_iff pid true c).mp hc
      have hpid_c : pid ∈ allIds c := hid ▸ nodeId_mem_allIds c
      have hno : ∀ c' ∈ rest, nodeId c' ≠ pid := by
        intro c' hc' hid'
        exact hdisj hpid_c (hid' ▸ nodeId_mem_idsForest rest c' hc')
      rw [removeForest_cons_none pid c rest hc]
      rw [removeForest_length_of_no_match pid rest hno]
      simp
    | some r =>
      rw [removeForest_cons_some pid c rest r hc]
      simp only [List.length_cons]
      have := ih hndr
      omega

mutual

theorem removeNode_noSmallSplit (pid : String) (n : PanelNode) (r : PanelNode)
    (hok : noSmallSplit n = true) (hnd : (allIds n).Nodup)
    (h : removeNode pid true n = some r) : noSmallSplit r = true := by
  match n with
  | .leaf i ts s m =>
    unfold removeNode at h
    by_cases hi : i = pid
    · rw [if_pos hi] at h
      cases h
    · rw [if_neg hi] at h
      injection h with h
      rw [← h]
      rfl
  | .split i d cs s m =>
    unfold removeNode at h
    by_cases hi : i = pid
    · rw [if_pos hi] at h
      cases h
    · rw [if_neg hi] at h
      unfold noSmallSplit at hok
      rcases Bool.and_eq_true_iff.mp hok with ⟨hlen, hforest⟩
      have hlen2 : 2 ≤ cs.length := by simpa using hlen
      have hnd2 : (idsForest cs).Nodup :=
        (List.nodup_cons.mp (show (i :: idsForest cs).Nodup from hnd)).2
      have hge := removeForest_length_ge pid cs hnd2
      have hfok := removeForest_noSmallSplit pid cs hforest hnd2
      rcases hF : removeForest pid cs with _ | ⟨c1, _ | ⟨c2, r2⟩⟩ <;>
        rw [hF] at h hfok hge
      · simp at hge
        exfalso
        omega
      · simp only [if_true] at h
        injection h with h
        rw [← h, noSmallSplit_setSize]
        unfold noSmallSplitForest at hfok
        exact (Bool.and_eq_true_iff.mp hfok).1
      · injection h with h
        rw [← h]
        unfold noSmallSplit
        rw [hfok]
        simp only [Bool.and_true, decide_eq_true_eq, List.length_cons]
        omega

theorem removeForest_noSmallSplit (pid : String) (cs : List PanelNode)
    (hok : noSmallSplitForest cs = true) (hnd : (idsForest cs).Nodup) :
    noSmallSplitForest (removeForest pid cs) = true := by
  match cs with
  | [] => rfl
  | c :: rest =>
    unfold noSmallSplitForest at hok
    rcases Bool.and_eq_true_iff.mp hok with ⟨hc_ok, hrest_ok⟩
    have hndA : (allIds c ++ idsForest rest).Nodup := hnd
    rcases List.nodup_append.mp hndA with ⟨hndc, hndr, _⟩
    cases hc : removeNode pid true c with
    | none =>
      rw [removeForest_cons_none pid c rest hc]
      exact removeForest_noSmallSplit pid rest hrest_ok hndr
    | some r =>
      rw [removeForest_cons_some pid c rest r hc]
      unfold noSmallSplitForest
      rw [removeNode_noSmallSplit pid c r hc_ok hndc hc]
      rw [removeForest_noSmallSplit pid rest hrest_ok hndr]
      rfl

end

theorem removeNode_split_false (pid i : String) (d : Direction)
    (cs : List PanelNode) (s m : Option Nat) :
    removeNode pid false (.split i d cs s m)
      = if i = pid then none
        else some (.split i d (removeForest pid cs) s m) := by
  unfold removeNode
  by_cases hi : i = pid
  · simp [hi]
  · rw [if_neg hi, if_neg hi]
    rcases hF : removeForest pid cs with _ | ⟨c1, _ | ⟨c2, r2⟩⟩ <;> simp

theorem removePanelNode_preserves (t : PanelNode) (pid stamp : String)
    (hok : nonRootSplitsOk t = true) (hnd : (allIds t).Nodup) :
    nonRootSplitsOk (removePanelNode t pid stamp) = true ∧
    (allIds (removePanelNode t pid stamp)).Nodup := by
  unfold removePanelNode
  cases t with
  | leaf i ts s m =>
    unfold removeNode
    by_cases hi : i = pid
    · rw [if_pos hi]
      exact ⟨rfl, by simp [allIds]⟩
    · rw [if_neg hi]
      exact ⟨hok, hnd⟩
  | split i d cs s m =>
    rw [removeNode_split_false pid i d cs s m]
    by_cases hi : i = pid
    · rw [if_pos hi]
      exact ⟨rfl, by simp [allIds]⟩
    · rw [if_neg hi]
      have hnd2 : (i :: idsForest cs).Nodup := hnd
      rcases List.nodup_cons.mp hnd2 with ⟨hi_nin, hndf⟩
      constructor
      · show nonRootSplitsOk (.split i d (removeForest pid cs) s m) = true
        unfold nonRootSplitsOk
        exact removeForest_noSmallSplit pid cs hok hndf
      · show (i :: idsForest (removeForest pid cs)).Nodup
        refine List.nodup_cons.mpr ⟨?_, ?_⟩
        · intro hm
          exact hi_nin ((removeForest_ids_sublist pid cs).subset hm)
        · exact List.Nodup.sublist (removeForest_ids_sublist pid cs) hndf

theorem applyOps_preserves (ops : List LayoutOp) :
    ∀ t : PanelNode, nonRootSplitsOk t = true → (allIds t).Nodup →
      SafeOps t ops →
      nonRootSplitsOk (applyOps t ops) = true ∧
      (allIds (applyOps t ops)).Nodup := by
  induction ops with
  | nil =>
    intro t h1 h2 _
    exact ⟨h1, h2⟩
  | cons op rest ih =>
    intro t h1 h2 hsafe
    cases hsafe with
    | cons hf hrest =>
      have hstep : nonRootSplitsOk (applyOp t op) = true ∧
          (allIds (applyOp t op)).Nodup := by
        cases op with
        | splitOp pid dir tS cS dS =>
          obtain ⟨hf1, hf2, hf3⟩ := hf
          constructor
          · exact splitPanel_nonRootOk t pid dir tS cS dS h1
          · exact (splitNode_ids pid dir tS cS dS t h2 hf1 hf2 hf3).1
        | removeOp pid stamp =>
          exact removePanelNode_preserves t pid stamp h1 h2
      have hrec := ih (applyOp t op) hstep.1 hstep.2 hrest
      exact hrec

/-- C2 (amended): for every sequence of `splitPanel`/`removePanelNode`
calls with fresh generated ids, starting from a well-formed tree (all
splits have at least two children, all node ids distinct), every
*non-root* `Split` node in the resulting tree keeps at least two
children — a removal that leaves a non-root split with exactly one child
promotes that child.  The root split is exempt: the promotion is guarded
by `parentNode`, so the root may be left with fewer than two children
(see the counterexample). -/
theorem nonroot_split_invariant (t : PanelNode) (ops : List LayoutOp)
    (h1 : noSmallSplit t = true) (h2 : (allIds t).Nodup)
    (h3 : SafeOps t ops) :
    nonRootSplitsOk (applyOps t ops) = true :=
  (applyOps_preserves ops t (noSmallSplit_imp_nonRoot t h1) h2 h3).1

/-- C2, witness: split leaf `a` of the two-leaf tree, then remove leaf
`b`; all non-root splits keep two children. -/
theorem nonroot_split_invariant_witness :
    noSmallSplit exTree2 = true ∧ (allIds exTree2).Nodup ∧
    nonRootSplitsOk (applyOps exTree2
      [.splitOp "a" .vertical "7" "8" "d7", .removeOp "b" "9"]) = true := by
  refine ⟨by decide, by decide, ?_⟩
  refine nonroot_split_invariant exTree2 _ (by decide) (by decide) ?_
  refine SafeOps.cons ⟨by decide, by decide, by decide⟩
    (SafeOps.cons ?_ (SafeOps.nil _))
  exact trivial

/-- C2, counterexample: the claim as stated (root included) fails — in
the well-formed two-leaf tree, removing leaf `a` leaves the root `Split`
with a single child, which is not promoted because the promotion requires
a parent node. -/
theorem root_split_single_child_counterexample :
    noSmallSplit exTree2 = true ∧ (allIds exTree2).Nodup ∧
    noSmallSplit (applyOps exTree2 [.removeOp "a" "99"]) = false :=
  ⟨by decide, by decide, by decide⟩
